import Mathlib

/-!
# Verification of the FlatBuffers reflection layer (`include/flatbuffers/reflection.h`)

A shallow embedding of the reflective read/write/resize operations of the
FlatBuffers reflection header.  The byte buffer is a `List Nat` (one entry per
byte), addresses are `Int` (pointer arithmetic in the source may produce
addresses below the buffer base), and all multi-byte values are little-endian.

The record-layout primitives used by the header (`ReadScalar`, `WriteScalar`,
`Table::GetVTable`, `Table::GetOptionalFieldOffset`, `Table::GetField`,
`Table::GetPointer`, `GetRoot`) live in `flatbuffers/flatbuffers.h`, which is
not part of the sources; they are modelled from the spec's data model (spec
section 3).  Everything in `reflection.h` itself is translated directly.

The resize walk (`ResizeContext`) is embedded with an explicit event log: every
fired `Straddle` check records the pair of addresses compared, the patched
offset-slot location, the adjustment sign, and the value of the visit
("DAG-check") bit at the moment the slot was patched.  The log is ghost data:
erasing it leaves exactly the source computation.
-/

/-! ## Byte-buffer primitives (modelled from the spec, section 3) -/

/-- Read one byte; addresses outside the buffer read as 0 (the source would
have undefined behaviour there, so any total model is admissible). -/
def getB (b : List Nat) (a : Int) : Nat :=
  if 0 ≤ a then b.getD a.toNat 0 else 0

/-- Write one byte; out-of-range writes are dropped. -/
def setB (b : List Nat) (a : Int) (v : Nat) : List Nat :=
  if 0 ≤ a then b.set a.toNat v else b

/-- Modelled from the spec: `ReadScalar<uoffset_t>` — little-endian 32-bit
unsigned read. -/
def readU32 (b : List Nat) (a : Int) : Nat :=
  getB b a + 256 * getB b (a + 1) + 65536 * getB b (a + 2) +
    16777216 * getB b (a + 3)

/-- Modelled from the spec: `ReadScalar<voffset_t>` — little-endian 16-bit
unsigned read. -/
def readU16 (b : List Nat) (a : Int) : Nat :=
  getB b a + 256 * getB b (a + 1)

/-- Reinterpret a 32-bit unsigned value as two's-complement signed
(`soffset_t`). -/
def toI32 (n : Nat) : Int :=
  if n < 2147483648 then (n : Int) else (n : Int) - 4294967296

/-- Modelled from the spec: `ReadScalar<soffset_t>`. -/
def readI32 (b : List Nat) (a : Int) : Int :=
  toI32 (readU32 b a)

/-- Modelled from the spec: `WriteScalar` of a 32-bit word; the value is
reduced to its 32-bit two's-complement representation (signed and unsigned
stores coincide on the stored bytes). -/
def writeU32 (b : List Nat) (a : Int) (w : Int) : List Nat :=
  let u : Nat := (w.emod 4294967296).toNat
  setB (setB (setB (setB b a (u % 256)) (a + 1) (u / 256 % 256))
      (a + 2) (u / 65536 % 256)) (a + 3) (u / 16777216 % 256)

/-! ## Schema descriptor (the in-memory reflection object graph, spec §3) -/

/-- `reflection::BaseType`, in enum order (`None` = 0 … `Union` = 16). -/
inductive BaseType where
  | None_ | UType | Bool_ | Byte | UByte | Short | UShort
  | Int_ | UInt | Long_ | ULong | Float_ | Double_
  | String_ | Vector_ | Obj | Union_
deriving DecidableEq, Repr

/-- The numeric value of the `BaseType` enum tag. -/
def BaseType.code : BaseType → Nat
  | .None_ => 0 | .UType => 1 | .Bool_ => 2 | .Byte => 3 | .UByte => 4
  | .Short => 5 | .UShort => 6 | .Int_ => 7 | .UInt => 8 | .Long_ => 9
  | .ULong => 10 | .Float_ => 11 | .Double_ => 12 | .String_ => 13
  | .Vector_ => 14 | .Obj => 15 | .Union_ => 16

/-- `GetTypeSize`: byte size per `BaseType` tag
(`{0,1,1,1,1,2,2,4,4,8,8,4,8,4,4,4,4}`). -/
def GetTypeSize (t : BaseType) : Nat :=
  [0, 1, 1, 1, 1, 2, 2, 4, 4, 8, 8, 4, 8, 4, 4, 4, 4].getD t.code 0

/-- `reflection::Type`: base type, element type (for vectors) and index into
`schema.objects` / `schema.enums`. -/
structure FBType where
  base_type : BaseType
  element : BaseType
  index : Nat
deriving DecidableEq, Repr

/-- `reflection::Field`. -/
structure FieldDef where
  name : String
  offset : Nat
  ftype : FBType
  default_integer : Int
  default_real : Rat
deriving DecidableEq, Repr

/-- `reflection::Object`. -/
structure Object where
  name : String
  is_struct : Bool
  minalign : Nat
  bytesize : Nat
  fields : List FieldDef
deriving DecidableEq, Repr

/-- `reflection::EnumVal`: discriminant value and the referenced object
(as an index into `schema.objects`). -/
structure EnumVal where
  value : Nat
  objIndex : Nat
deriving DecidableEq, Repr

/-- `reflection::Enum`. -/
structure Enum where
  values : List EnumVal
deriving DecidableEq, Repr

/-- `reflection::Schema`. -/
structure Schema where
  objects : List Object
  enums : List Enum
  root_table : Object
deriving Repr

instance : Inhabited Object := ⟨⟨"", false, 0, 0, []⟩⟩

instance : Inhabited FieldDef := ⟨⟨"", 0, ⟨.None_, .None_, 0⟩, 0, 0⟩⟩

instance : Inhabited Enum := ⟨⟨[]⟩⟩

/-- `schema.objects()->Get(i)`. -/
def objGet (sch : Schema) (i : Nat) : Object := sch.objects.getD i default

/-- `schema.enums()->Get(i)`. -/
def enumGet (sch : Schema) (i : Nat) : Enum := sch.enums.getD i default

/-! ## Record-layout primitives (modelled from the spec, section 3) -/

/-- Modelled from the spec: `Table::GetVTable` — the record begins with a
signed 32-bit offset and the vtable lies at `record_addr - soffset`. -/
def getVTable (b : List Nat) (table : Int) : Int :=
  table - readI32 b table

/-- Modelled from the spec: `Table::GetOptionalFieldOffset` — the vtable holds
its own byte size followed by per-field 16-bit offsets; a field whose vtable
slot is missing or zero is absent. -/
def getOptionalFieldOffset (b : List Nat) (table : Int) (voffset : Nat) : Nat :=
  let vtable := getVTable b table
  let vtsize := readU16 b vtable
  if voffset < vtsize then readU16 b (vtable + voffset) else 0

/-- Modelled from the spec: `Table::CheckField`. -/
def checkField (b : List Nat) (table : Int) (voffset : Nat) : Bool :=
  getOptionalFieldOffset b table voffset ≠ 0

/-- Modelled from the spec: `GetAnyRoot` / `GetRoot` — the buffer starts with a
forward 32-bit offset to the root record. -/
def getAnyRoot (b : List Nat) : Int :=
  (readU32 b 0 : Int)

/-- Little-endian unsigned read of `w` bytes. -/
def readUIntW (b : List Nat) (a : Int) : Nat → Nat
  | 0 => 0
  | w + 1 => getB b a + 256 * readUIntW b (a + 1) w

/-- Two's-complement reinterpretation of a `w`-byte unsigned value. -/
def toSignedW (u : Nat) (w : Nat) : Int :=
  if u < 2 ^ (8 * w - 1) then (u : Int) else (u : Int) - 2 ^ (8 * w)

/-- `static_cast<T>` of an integer to a `w`-byte integer type. -/
def castIntW (v : Int) (w : Nat) (signed : Bool) : Int :=
  let u := v.emod (2 ^ (8 * w))
  if signed then toSignedW u.toNat w else u

/-- Modelled from the spec: `Table::GetField<T>` for a `w`-byte integer type —
the stored little-endian value, or `static_cast<T>(field.default_integer())`
when the field is absent from the vtable.  This is the body shared by all the
`GetFieldI<T>` instantiations of the header. -/
def getScalarFieldI (b : List Nat) (table : Int) (fd : FieldDef) (w : Nat)
    (signed : Bool) : Int :=
  let fo := getOptionalFieldOffset b table fd.offset
  if fo = 0 then castIntW fd.default_integer w signed
  else
    let u := readUIntW b (table + fo) w
    if signed then toSignedW u w else (u : Int)

/-- `GetFieldF<T>`: the stored floating-point value (decoded by the abstract
`readF`, since IEEE decoding is a layout primitive outside the sources), or the
field's real default when absent. -/
def getScalarFieldF (readF : List Nat → Int → Rat) (b : List Nat)
    (table : Int) (fd : FieldDef) : Rat :=
  let fo := getOptionalFieldOffset b table fd.offset
  if fo = 0 then fd.default_real else readF b (table + fo)

/-- `GetFieldS`: address of the string a string field points at, or `none`
when the field is absent (`GetPointer` returns `nullptr` for a zero vtable
entry). -/
def GetFieldSaddr (b : List Nat) (table : Int) (fd : FieldDef) : Option Int :=
  let fo := getOptionalFieldOffset b table fd.offset
  if fo = 0 then none
  else some (table + fo + (readU32 b (table + fo) : Int))

/-- The bytes of a NUL-terminated C string starting at address `a`
(what `String::c_str()` hands to the numeric parsers). -/
def cStrBytes (b : List Nat) (a : Int) : List Nat :=
  (b.drop a.toNat).takeWhile (fun x => x ≠ 0)

/-- `String::str()`: the `Length()`-byte content of the string object at
address `p` (32-bit length header followed by the data bytes). -/
def strContent (b : List Nat) (p : Int) : List Nat :=
  (List.range (readU32 b p)).map (fun i => getB b (p + 4 + (i : Int)))

/-- `static_cast<int64_t>` of a floating-point value: truncation toward 0. -/
def truncRat (x : Rat) : Int :=
  if 0 ≤ x then x.floor else x.ceil

/-! ## `GetAnyFieldI` / `GetAnyFieldF` (reflection.h)

The floating-point decodings `readF32`/`readF64` and the C parsing functions
`StringToInt`/`strtod` are external to the sources and passed as parameters. -/

/-- `GetAnyFieldI`: any field coerced to a 64-bit integer. -/
def GetAnyFieldI (readF32 readF64 : List Nat → Int → Rat)
    (stringToInt : List Nat → Int) (b : List Nat) (table : Int)
    (fd : FieldDef) : Int :=
  match fd.ftype.base_type with
  | .UType => getScalarFieldI b table fd 1 false
  | .Bool_ => getScalarFieldI b table fd 1 false
  | .UByte => getScalarFieldI b table fd 1 false
  | .Byte => getScalarFieldI b table fd 1 true
  | .Short => getScalarFieldI b table fd 2 true
  | .UShort => getScalarFieldI b table fd 2 false
  | .Int_ => getScalarFieldI b table fd 4 true
  | .UInt => getScalarFieldI b table fd 4 false
  | .Long_ => getScalarFieldI b table fd 8 true
  | .ULong => toSignedW (getScalarFieldI b table fd 8 false).toNat 8
  | .Float_ => truncRat (getScalarFieldF readF32 b table fd)
  | .Double_ => truncRat (getScalarFieldF readF64 b table fd)
  | .String_ =>
    match GetFieldSaddr b table fd with
    | none => 0
    | some p => stringToInt (cStrBytes b (p + 4))
  | _ => 0

/-- `GetAnyFieldF`: any field coerced to a double. -/
def GetAnyFieldF (readF32 readF64 : List Nat → Int → Rat)
    (stringToInt : List Nat → Int) (strtod : List Nat → Rat)
    (b : List Nat) (table : Int) (fd : FieldDef) : Rat :=
  match fd.ftype.base_type with
  | .Float_ => getScalarFieldF readF32 b table fd
  | .Double_ => getScalarFieldF readF64 b table fd
  | .String_ =>
    match GetFieldSaddr b table fd with
    | none => 0
    | some p => strtod (cStrBytes b (p + 4))
  | _ => (GetAnyFieldI readF32 readF64 stringToInt b table fd : Rat)

/-! ## The union resolver (`GetUnionType`, reflection.h) -/

/-- `GetFieldI<uint8_t>`: read of the union discriminant field. -/
def getFieldU8 (b : List Nat) (table : Int) (fd : FieldDef) : Nat :=
  (getScalarFieldI b table fd 1 false).toNat

/-- `GetUnionType`: find the sibling `<name>_type` discriminant field, read it,
and map it through the enum to the concrete object.  The source asserts that
the discriminant field and enum entry exist; the model totalizes the lookups
with defaults. -/
def GetUnionType (sch : Schema) (parent : Object) (fd : FieldDef)
    (b : List Nat) (table : Int) : Object :=
  let enumdef := enumGet sch fd.ftype.index
  let type_field := (parent.fields.find? (fun f => f.name = fd.name ++ "_type")).getD default
  let union_type := getFieldU8 b table type_field
  let objIdx := ((enumdef.values.find? (fun v => v.value = union_type)).map EnumVal.objIndex).getD 0
  objGet sch objIdx

/-! ## The resize engine (`ResizeContext`, reflection.h)

State: the byte buffer plus the visit bitset `dag_check_` (one bit per 32-bit
slot position, index `slot_addr / 4`).  Each fired `Straddle` check is also
recorded as a ghost `Ev` event. -/

/-- Walk state: buffer bytes and the `dag_check_` visit bitset. -/
structure RCState where
  buf : List Nat
  dag : List Bool
deriving DecidableEq, Repr

/-- Ghost record of one fired `Straddle` check: the compared pair
(`first ≤ startptr ≤ second` held), the patched offset-slot address, the
adjustment direction `D`, and the visit bit's value just before the patch. -/
structure Ev where
  first : Int
  second : Int
  loc : Int
  sign : Int
  prevBit : Bool
deriving DecidableEq, Repr

/-- `dag_check_` index of an offset-slot address: the `uoffset_t*` pointer
difference from the buffer base, i.e. the address divided by 4. -/
def dagIdx (loc : Int) : Nat := (loc.ediv 4).toNat

/-- Read a visit bit (`DagCheck(offsetloc)` as an r-value). -/
def dagGetI (dag : List Bool) (i : Nat) : Bool := dag.getD i false

/-- Set a visit bit (`DagCheck(offsetloc) = true`). -/
def dagSetI (dag : List Bool) (i : Nat) : List Bool := dag.set i true

/-- `ResizeContext::Straddle<T, D>(first, second, offsetloc)`: if the range
between `first` and `second` straddles the insertion point, adjust the offset
stored at `offsetloc` by `delta * D` and mark its visit bit.  Returns the new
state and the (ghost) singleton event log when the check fired. -/
def Straddle (start delta sign : Int) (first second_ offsetloc : Int)
    (s : RCState) : RCState × List Ev :=
  if first ≤ start ∧ start ≤ second_ then
    (⟨writeU32 s.buf offsetloc ((readU32 s.buf offsetloc : Int) + delta * sign),
      dagSetI s.dag (dagIdx offsetloc)⟩,
     [⟨first, second_, offsetloc, sign, dagGetI s.dag (dagIdx offsetloc)⟩])
  else (s, [])

/-- One iteration block of the vector loop in `ResizeTable` (case
`reflection::Vector`): for each element offset slot not yet visited, apply the
straddle check and recurse into the element record.  `rec` is the recursive
`ResizeTable` call (with its fuel already consumed); `i` is the element index,
`rem` the number of elements still to process. -/
def resizeVecElems (start delta : Int)
    (rec : Object → Int → RCState → RCState × List Ev)
    (elemobjectdef : Object) (ref : Int) :
    Nat → Nat → RCState → RCState × List Ev
  | _, 0, s => (s, [])
  | i, rem + 1, s =>
    let loc := ref + 4 + 4 * (i : Int)
    if dagGetI s.dag (dagIdx loc) then
      resizeVecElems start delta rec elemobjectdef ref (i + 1) rem s
    else
      let dest := loc + (readU32 s.buf loc : Int)
      let r1 := Straddle start delta 1 loc dest loc s
      let r2 := rec elemobjectdef dest r1.1
      let r3 := resizeVecElems start delta rec elemobjectdef ref (i + 1) rem r2.1
      (r3.1, r1.2 ++ r2.2 ++ r3.2)

/-- The per-field body of the loop in `ResizeContext::ResizeTable`: skip
scalars, absent fields and inline structs, apply the straddle check to the
field's offset slot if unvisited, then recurse by category.  The unreachable
`default: assert(false)` branch is a no-op. -/
def resizeField (sch : Schema) (start delta : Int)
    (rec : Object → Int → RCState → RCState × List Ev)
    (objectdef : Object) (fd : FieldDef) (table : Int) (s : RCState) :
    RCState × List Ev :=
  let base_type := fd.ftype.base_type
  if base_type.code ≤ BaseType.Double_.code then (s, [])
  else
    let offset := getOptionalFieldOffset s.buf table fd.offset
    if offset = 0 then (s, [])
    else
      let subobjectdef : Option Object :=
        if base_type = .Obj then some (objGet sch fd.ftype.index) else none
      if (subobjectdef.map Object.is_struct).getD false then (s, [])
      else
        let offsetloc := table + (offset : Int)
        if dagGetI s.dag (dagIdx offsetloc) then (s, [])
        else
          let ref := offsetloc + (readU32 s.buf offsetloc : Int)
          let r1 := Straddle start delta 1 offsetloc ref offsetloc s
          match base_type with
          | .Obj =>
            let r2 := rec (objGet sch fd.ftype.index) ref r1.1
            (r2.1, r1.2 ++ r2.2)
          | .Vector_ =>
            if fd.ftype.element ≠ .Obj then r1
            else
              let elemobjectdef := objGet sch fd.ftype.index
              if elemobjectdef.is_struct then r1
              else
                let n := readU32 r1.1.buf ref
                let r2 := resizeVecElems start delta rec elemobjectdef ref 0 n r1.1
                (r2.1, r1.2 ++ r2.2)
          | .Union_ =>
            let r2 := rec (GetUnionType sch objectdef fd r1.1.buf table) ref r1.1
            (r2.1, r1.2 ++ r2.2)
          | .String_ => r1
          | _ => r1

/-- The field loop of `ResizeContext::ResizeTable`. -/
def resizeFields (sch : Schema) (start delta : Int)
    (rec : Object → Int → RCState → RCState × List Ev)
    (objectdef : Object) (table : Int) :
    List FieldDef → RCState → RCState × List Ev
  | [], s => (s, [])
  | fd :: rest, s =>
    let r1 := resizeField sch start delta rec objectdef fd table s
    let r2 := resizeFields sch start delta rec objectdef table rest r1.1
    (r2.1, r1.2 ++ r2.2)

/-- `ResizeContext::ResizeTable`: if the record's own slot was already visited,
return; otherwise apply the straddle check to the record↔vtable pair in both
directions, stop early when the insertion point is at or before the record,
and otherwise process every schema field.  `fuel` bounds the recursion depth
(the source recursion terminates on well-formed, acyclic buffers; every
theorem below holds for every fuel value). -/
def ResizeTable (sch : Schema) (start delta : Int) :
    Nat → Object → Int → RCState → RCState × List Ev
  | 0, _, _, s => (s, [])
  | fuel + 1, objectdef, table, s =>
    if dagGetI s.dag (dagIdx table) then (s, [])
    else
      let vtable := getVTable s.buf table
      let r1 := Straddle start delta (-1) table vtable table s
      let r2 := Straddle start delta (-1) vtable table table r1.1
      if start ≤ table then (r2.1, r1.2 ++ r2.2)
      else
        let r3 := resizeFields sch start delta
          (ResizeTable sch start delta fuel) objectdef table objectdef.fields r2.1
        (r3.1, r1.2 ++ r2.2 ++ r3.2)

/-- `delta_ = (delta_ + mask) & ~mask` with `mask = sizeof(largest_scalar_t)-1
= 7`, computed on a 32-bit two's-complement `int`. -/
def roundDelta (d : Int) : Int :=
  toI32 (Nat.land ((d + 7).emod 4294967296).toNat 4294967288)

/-- The byte splice at the end of the constructor: insert `delta` zero bytes at
`start`, or erase `-delta` bytes starting at `start`. -/
def splice (b : List Nat) (start delta : Int) : List Nat :=
  if 0 < delta then
    b.take start.toNat ++ List.replicate delta.toNat 0 ++ b.drop start.toNat
  else
    b.take start.toNat ++ b.drop (start.toNat + (-delta).toNat)

/-- The offset-patching phase of the `ResizeContext` constructor (everything
between the rounding and the splice): fresh visit bitset of `size / 4` bits,
root-offset straddle check, then the table walk.  `delta` is the already
rounded delta. -/
def resizePatch (sch : Schema) (start delta : Int) (fuel : Nat)
    (b : List Nat) : RCState × List Ev :=
  let s0 : RCState := ⟨b, List.replicate (b.length / 4) false⟩
  let root := getAnyRoot b
  let r1 := Straddle start delta 1 0 root 0 s0
  let r2 := ResizeTable sch start delta fuel sch.root_table root r1.1
  (r2.1, r1.2 ++ r2.2)

/-- `ResizeContext::ResizeContext`: round the delta up to a multiple of 8; a
zero rounded delta is a no-op; otherwise patch all straddling offsets and then
splice bytes at `start`.  Returns the new buffer and the ghost event log. -/
def ResizeContextRun (sch : Schema) (start : Int) (delta : Int) (fuel : Nat)
    (b : List Nat) : List Nat × List Ev :=
  let d := roundDelta delta
  if d = 0 then (b, [])
  else
    let r := resizePatch sch start d fuel b
    (splice r.1.buf start d, r.2)

/-! ## The resize façades (`SetString`, `ResizeVector`, reflection.h) -/

/-- Write a list of bytes at consecutive addresses (`memcpy`, and the struct
store of `ResizeVector`). -/
def writeBytesL : List Nat → Int → List Nat → List Nat
  | b, _, [] => b
  | b, a, v :: vs => writeBytesL (setB b a v) (a + 1) vs

/-- `memset(p, 0, n)`. -/
def memsetZ (b : List Nat) (a : Int) (n : Nat) : List Nat :=
  writeBytesL b a (List.replicate n 0)

/-- `SetString`: `delta = |val| - str->Length()`; `start` is the first byte
after the string's 32-bit length header; resize if the length changed (zeroing
the old content on shrink), then copy the new bytes plus the NUL terminator.
`val` is the new string's byte content.  Returns the new buffer and the resize
walk's ghost event log. -/
def SetString (sch : Schema) (val : List Nat) (str : Int) (fuel : Nat)
    (b : List Nat) : List Nat × List Ev :=
  let delta : Int := (val.length : Int) - (readU32 b str : Int)
  let start : Int := str + 4
  if delta ≠ 0 then
    let r := ResizeContextRun sch start delta fuel b
    let b2 := if delta < 0 then memsetZ r.1 start (readU32 r.1 str) else r.1
    (writeBytesL b2 start (val ++ [0]), r.2)
  else
    (writeBytesL b start (val ++ [0]), [])

/-- Initialize the `delta_elem` new elements of a resized vector with the
element bytes `val` (`WriteScalar` for scalars, memberwise copy for structs —
either way the element's `sizeof(T)` bytes). `i` is the loop index. -/
def fillNewElems (valBytes : List Nat) (base : Int) (elemSize : Nat) :
    Nat → Nat → List Nat → List Nat
  | _, 0, b => b
  | i, rem + 1, b =>
    fillNewElems valBytes base elemSize (i + 1) rem
      (writeBytesL b (base + (elemSize : Int) * (i : Int)) valBytes)

/-- `ResizeVector<T>`: compute the element and byte deltas, resize at the end
of the current elements, rewrite the length header, and fill the new element
slots with `val` (given as its `sizeof(T)` bytes). -/
def ResizeVector (sch : Schema) (newsize : Nat) (valBytes : List Nat)
    (elemSize : Nat) (vec : Int) (fuel : Nat) (b : List Nat) :
    List Nat × List Ev :=
  let delta_elem : Int := (newsize : Int) - (readU32 b vec : Int)
  let delta_bytes : Int := delta_elem * (elemSize : Int)
  let start : Int := vec + 4 + (elemSize : Int) * (readU32 b vec : Int)
  if delta_bytes ≠ 0 then
    let r := ResizeContextRun sch start delta_bytes fuel b
    let b2 := writeU32 r.1 vec (newsize : Int)
    (fillNewElems valBytes start elemSize 0
      (if 0 ≤ delta_elem then delta_elem.toNat else 0) b2, r.2)
  else (b, [])

/-! ## The any-type setters (`SetField`, `SetAnyFieldI/F/S`, reflection.h)

Floating-point encoding (`WriteScalar<float/double>`) is a layout primitive
outside the sources; it is passed as the abstract `encF32`/`encF64`.  Each
performed store is also recorded in a ghost write log: `iW w v` is a `w`-byte
integer store of the two's-complement word `v`, `f32W x` / `f64W x` a
float/double store of value `x` (before IEEE rounding). -/

/-- Ghost record of one scalar field store. -/
inductive WEv where
  | iW (w : Nat) (v : Nat)
  | f32W (x : Rat)
  | f64W (x : Rat)
deriving DecidableEq, Repr

/-- Little-endian bytes of a `w`-byte unsigned value. -/
def encodeLE (w : Nat) (u : Nat) : List Nat :=
  (List.range w).map (fun i => u / 256 ^ i % 256)

/-- `SetField<T>` for a `w`-byte integer type: write in place if the field is
present (`Table::SetField` returns false, writing nothing, when absent). -/
def setFieldInt (b : List Nat) (table : Int) (fd : FieldDef) (w : Nat)
    (v : Int) : List Nat × List WEv :=
  let fo := getOptionalFieldOffset b table fd.offset
  if fo = 0 then (b, [])
  else
    let u := (v.emod (2 ^ (8 * w))).toNat
    (writeBytesL b (table + fo) (encodeLE w u), [.iW w u])

/-- `SetField<float>`. -/
def setFieldF32 (encF32 : Rat → List Nat) (b : List Nat) (table : Int)
    (fd : FieldDef) (x : Rat) : List Nat × List WEv :=
  let fo := getOptionalFieldOffset b table fd.offset
  if fo = 0 then (b, [])
  else (writeBytesL b (table + fo) (encF32 x), [.f32W x])

/-- `SetField<double>`. -/
def setFieldF64 (encF64 : Rat → List Nat) (b : List Nat) (table : Int)
    (fd : FieldDef) (x : Rat) : List Nat × List WEv :=
  let fo := getOptionalFieldOffset b table fd.offset
  if fo = 0 then (b, [])
  else (writeBytesL b (table + fo) (encF64 x), [.f64W x])

/-- `SetAnyFieldI`: dispatch an int64 value on the field's base type
(`FLATBUFFERS_SET(T)` per case; strings unsupported, `default: break`). -/
def SetAnyFieldI (encF32 encF64 : Rat → List Nat) (b : List Nat)
    (table : Int) (fd : FieldDef) (v : Int) : List Nat × List WEv :=
  match fd.ftype.base_type with
  | .UType => setFieldInt b table fd 1 v
  | .Bool_ => setFieldInt b table fd 1 v
  | .UByte => setFieldInt b table fd 1 v
  | .Byte => setFieldInt b table fd 1 v
  | .Short => setFieldInt b table fd 2 v
  | .UShort => setFieldInt b table fd 2 v
  | .Int_ => setFieldInt b table fd 4 v
  | .UInt => setFieldInt b table fd 4 v
  | .Long_ => setFieldInt b table fd 8 v
  | .ULong => setFieldInt b table fd 8 v
  | .Float_ => setFieldF32 encF32 b table fd (v : Rat)
  | .Double_ => setFieldF64 encF64 b table fd (v : Rat)
  | _ => (b, [])

/-- `SetAnyFieldF`: floats stored directly, otherwise truncate and delegate to
`SetAnyFieldI` (strings unsupported). -/
def SetAnyFieldF (encF32 encF64 : Rat → List Nat) (b : List Nat)
    (table : Int) (fd : FieldDef) (x : Rat) : List Nat × List WEv :=
  match fd.ftype.base_type with
  | .Float_ => setFieldF32 encF32 b table fd x
  | .Double_ => setFieldF64 encF64 b table fd x
  | _ => SetAnyFieldI encF32 encF64 b table fd (truncRat x)

/-- `SetAnyFieldS`: on a Float/Double field the source runs the float branch
`SetAnyFieldF(table, field, strtod(val))` and then — the case has no `break` —
falls through into `default: SetAnyFieldI(table, field, StringToInt(val))`.
Every other base type runs only the integer branch.  `strtod`/`StringToInt`
are the external C parsers, abstract here. -/
def SetAnyFieldS (strtod : List Nat → Rat) (stringToInt : List Nat → Int)
    (encF32 encF64 : Rat → List Nat) (b : List Nat) (table : Int)
    (fd : FieldDef) (val : List Nat) : List Nat × List WEv :=
  match fd.ftype.base_type with
  | .Float_ =>
    let r1 := SetAnyFieldF encF32 encF64 b table fd (strtod val)
    let r2 := SetAnyFieldI encF32 encF64 r1.1 table fd (stringToInt val)
    (r2.1, r1.2 ++ r2.2)
  | .Double_ =>
    let r1 := SetAnyFieldF encF32 encF64 b table fd (strtod val)
    let r2 := SetAnyFieldI encF32 encF64 r1.1 table fd (stringToInt val)
    (r2.1, r1.2 ++ r2.2)
  | _ => SetAnyFieldI encF32 encF64 b table fd (stringToInt val)

/-! ## Concrete buffers and schemas used as witnesses -/

/-- Schema with root object `T1 { name: string (voffset 4) }`. -/
def obj1 : Object :=
  ⟨"T1", false, 1, 8, [⟨"name", 4, ⟨.String_, .None_, 0⟩, 0, 0⟩]⟩

/-- Schema for `bufT1`. -/
def sch1 : Schema := ⟨[obj1], [], obj1⟩

/-- A serialized `T1 { name: "ab" }`: root offset 12, vtable at 4, table at 12
(soffset 8), string field slot at 16 → string at 20 (`len 2, "ab", NUL`). -/
def bufT1 : List Nat :=
  [12, 0, 0, 0,
   6, 0, 8, 0, 4, 0, 0, 0,
   8, 0, 0, 0,
   4, 0, 0, 0,
   2, 0, 0, 0, 97, 98, 0]

/-- Schema with root object `T2 { name: string (voffset 4), other: string
(voffset 6) }`. -/
def obj2 : Object :=
  ⟨"T2", false, 1, 12,
   [⟨"name", 4, ⟨.String_, .None_, 0⟩, 0, 0⟩,
    ⟨"other", 6, ⟨.String_, .None_, 0⟩, 0, 0⟩]⟩

/-- Schema for `bufT2`. -/
def sch2 : Schema := ⟨[obj2], [], obj2⟩

/-- A serialized `T2 { name: "ab", other: "z" }`: root at 12, vtable at 4,
field slots at 16 (string at 24) and 20 (string at 32). -/
def bufT2 : List Nat :=
  [12, 0, 0, 0,
   8, 0, 12, 0, 4, 0, 8, 0,
   8, 0, 0, 0,
   8, 0, 0, 0,
   12, 0, 0, 0,
   2, 0, 0, 0, 97, 98, 0, 0,
   1, 0, 0, 0, 122, 0]

/-- Schema with root object `T3 { v: vector of Int (voffset 4) }`. -/
def obj3 : Object :=
  ⟨"T3", false, 1, 8, [⟨"v", 4, ⟨.Vector_, .Int_, 0⟩, 0, 0⟩]⟩

/-- Schema for `bufT3`. -/
def sch3 : Schema := ⟨[obj3], [], obj3⟩

/-- A serialized `T3 { v: [10, 20, 30] }`: root at 12, vtable at 4, vector
field slot at 16 → vector at 20 (length 3, elements 10, 20, 30). -/
def bufT3 : List Nat :=
  [12, 0, 0, 0,
   6, 0, 8, 0, 4, 0, 0, 0,
   8, 0, 0, 0,
   4, 0, 0, 0,
   3, 0, 0, 0, 10, 0, 0, 0, 20, 0, 0, 0, 30, 0, 0, 0]

/-- Object `T4 { x: float (voffset 4) }` for the `SetAnyFieldS` fall-through
witness; its table sits at address 8 over a vtable at 0. -/
def fdFloat : FieldDef := ⟨"x", 4, ⟨.Float_, .None_, 0⟩, 0, 0⟩

/-- Buffer holding a `T4` table at address 8 (vtable at 0, float field at 12). -/
def bufT4 : List Nat :=
  [6, 0, 8, 0, 4, 0, 0, 0,
   8, 0, 0, 0,
   0, 0, 0, 0]

/-- A string field descriptor (voffset 4) used by the absent-field witness. -/
def fdString : FieldDef := ⟨"s", 4, ⟨.String_, .None_, 0⟩, 0, 0⟩

/-- A buffer whose table (at address 4) has an empty vtable: every field is
absent. -/
def bufT5 : List Nat :=
  [4, 0, 6, 0,
   4, 0, 0, 0]

/-- A vector-of-strings field descriptor (voffset 4) for the no-descent
witness. -/
def fdVecStr : FieldDef := ⟨"vs", 4, ⟨.Vector_, .String_, 0⟩, 0, 0⟩

/-! ## Proof-layer definitions -/

/-- Address `a` lies in the 4-byte window of the offset slot patched by `e`. -/
def evWindow (e : Ev) (a : Int) : Prop := e.loc ≤ a ∧ a < e.loc + 4

/-- The patched slots of two events occupy disjoint 4-byte windows. -/
def evDisj (e1 e2 : Ev) : Prop := e1.loc + 4 ≤ e2.loc ∨ e2.loc + 4 ≤ e1.loc

instance (e : Ev) (a : Int) : Decidable (evWindow e a) :=
  inferInstanceAs (Decidable (_ ∧ _))

instance (e1 e2 : Ev) : Decidable (evDisj e1 e2) :=
  inferInstanceAs (Decidable (_ ∨ _))

/-- Invariants tying a pre-state of (a phase of) the resize walk to its result
state and ghost event log:
1. the buffer length is preserved;
2. the visit-bitset length is preserved;
3. bytes outside every patched slot's window are unchanged;
4. each fired check satisfied the straddle condition, with direction ±1;
5. visit bits are only ever set, never cleared;
6. each patched (in-range) slot's visit bit is set afterwards;
7. each fired check with distinct endpoints found its visit bit clear —
   before the phase and at the moment of the patch;
8. if every fired check has distinct endpoints and every patched slot is in
   range, no two events patch the same bitset index;
9. if the patched windows are pairwise disjoint and in range, each patched
   slot's stored 32-bit word was adjusted by exactly `delta * sign`. -/
def StepOK (start delta : Int) (s : RCState) (r : RCState × List Ev) : Prop :=
  r.1.buf.length = s.buf.length ∧
  r.1.dag.length = s.dag.length ∧
  (∀ a : Int, (∀ e ∈ r.2, ¬ evWindow e a) → getB r.1.buf a = getB s.buf a) ∧
  (∀ e ∈ r.2, (e.first ≤ start ∧ start ≤ e.second) ∧ (e.sign = 1 ∨ e.sign = -1)) ∧
  (∀ i : Nat, dagGetI s.dag i = true → dagGetI r.1.dag i = true) ∧
  (∀ e ∈ r.2, dagIdx e.loc < s.dag.length → dagGetI r.1.dag (dagIdx e.loc) = true) ∧
  (∀ e ∈ r.2, e.first ≠ e.second →
    e.prevBit = false ∧ dagGetI s.dag (dagIdx e.loc) = false) ∧
  ((∀ e ∈ r.2, e.first ≠ e.second) → (∀ e ∈ r.2, dagIdx e.loc < s.dag.length) →
    (r.2.map (fun e => dagIdx e.loc)).Nodup) ∧
  (r.2.Pairwise evDisj →
    (∀ e ∈ r.2, 0 ≤ e.loc ∧ e.loc + 4 ≤ (s.buf.length : Int)) →
    ∀ e ∈ r.2, (readU32 r.1.buf e.loc : Int) =
      ((readU32 s.buf e.loc : Int) + delta * e.sign).emod 4294967296)

/-! ## Byte-level lemmas -/

theorem length_setB (b : List Nat) (a : Int) (v : Nat) :
    (setB b a v).length = b.length := by
  unfold setB; split <;> simp

theorem getB_setB_ne {a a' : Int} (b : List Nat) (v : Nat) (h : a' ≠ a) :
    getB (setB b a v) a' = getB b a' := by
  unfold setB
  split
  · next ha =>
    unfold getB
    split
    · next ha' =>
      have hne : a.toNat ≠ a'.toNat := fun hh => h (by omega)
      simp [List.getD_eq_getElem?_getD, List.getElem?_set_ne hne]
    · rfl
  · rfl

theorem getB_setB_eq {a : Int} (b : List Nat) (v : Nat) (h0 : 0 ≤ a)
    (h : a.toNat < b.length) : getB (setB b a v) a = v := by
  unfold setB getB
  rw [if_pos h0, if_pos h0]
  rw [List.getD_eq_getElem?_getD, List.getElem?_set_self',
    List.getElem?_eq_getElem h]
  rfl

theorem length_writeU32 (b : List Nat) (a : Int) (w : Int) :
    (writeU32 b a w).length = b.length := by
  unfold writeU32
  simp [length_setB]

theorem getB_writeU32_outside {a a' : Int} (b : List Nat) (w : Int)
    (h : a' < a ∨ a + 4 ≤ a') : getB (writeU32 b a w) a' = getB b a' := by
  unfold writeU32
  rw [getB_setB_ne _ _ (by omega), getB_setB_ne _ _ (by omega),
    getB_setB_ne _ _ (by omega), getB_setB_ne _ _ (by omega)]

theorem readU32_writeU32_self {a : Int} (b : List Nat) (w : Int) (h0 : 0 ≤ a)
    (hb : a.toNat + 4 ≤ b.length) :
    readU32 (writeU32 b a w) a = (w.emod 4294967296).toNat := by
  have hm0 : 0 ≤ w.emod 4294967296 := Int.emod_nonneg w (by norm_num)
  have hm1 : w.emod 4294967296 < 4294967296 := Int.emod_lt_of_pos w (by norm_num)
  unfold writeU32 readU32
  rw [getB_setB_ne _ _ (by omega), getB_setB_ne _ _ (by omega),
    getB_setB_ne _ _ (by omega),
    getB_setB_eq _ _ h0 (by simpa [length_setB] using by omega)]
  rw [getB_setB_ne _ _ (by omega), getB_setB_ne _ _ (by omega),
    getB_setB_eq _ _ (by omega) (by simp [length_setB]; omega)]
  rw [getB_setB_ne _ _ (by omega),
    getB_setB_eq _ _ (by omega) (by simp [length_setB]; omega)]
  rw [getB_setB_eq _ _ (by omega) (by simp [length_setB]; omega)]
  omega

theorem readU32_congr {b1 b2 : List Nat} {a : Int}
    (h : ∀ k : Nat, k < 4 → getB b1 (a + (k : Int)) = getB b2 (a + (k : Int))) :
    readU32 b1 a = readU32 b2 a := by
  have h0 := h 0 (by norm_num)
  have h1 := h 1 (by norm_num)
  have h2 := h 2 (by norm_num)
  have h3 := h 3 (by norm_num)
  simp only [Nat.cast_zero, Nat.cast_one, Nat.cast_ofNat, add_zero] at h0 h1 h2 h3
  unfold readU32
  rw [h0, h1, h2, h3]

theorem length_writeBytesL (vs : List Nat) :
    ∀ (b : List Nat) (a : Int), (writeBytesL b a vs).length = b.length := by
  induction vs with
  | nil => intro b a; rfl
  | cons v vs ih =>
    intro b a
    unfold writeBytesL
    rw [ih, length_setB]

theorem getB_writeBytesL_outside (vs : List Nat) :
    ∀ (b : List Nat) (a a' : Int), (a' < a ∨ a + (vs.length : Int) ≤ a') →
      getB (writeBytesL b a vs) a' = getB b a' := by
  induction vs with
  | nil => intro b a a' _; rfl
  | cons v vs ih =>
    intro b a a' h
    unfold writeBytesL
    have h' : a' < a + 1 ∨ (a + 1) + (vs.length : Int) ≤ a' := by
      simp at h; omega
    have hne : a' ≠ a := by simp at h; omega
    rw [ih (setB b a v) (a + 1) a' h', getB_setB_ne _ _ hne]

theorem getB_writeBytesL_at (vs : List Nat) :
    ∀ (b : List Nat) (a : Int) (k : Nat), k < vs.length → 0 ≤ a →
      (a + k).toNat < b.length →
      getB (writeBytesL b a vs) (a + (k : Int)) = vs.getD k 0 := by
  induction vs with
  | nil => intro b a k h; simp at h
  | cons v vs ih =>
    intro b a k hk h0 hb
    unfold writeBytesL
    match k with
    | 0 =>
      simp only [Nat.cast_zero, add_zero, List.getD_cons_zero]
      rw [getB_writeBytesL_outside vs (setB b a v) (a + 1) a (Or.inl (by omega))]
      exact getB_setB_eq b v h0 (by simp at hb; omega)
    | k + 1 =>
      have hg := ih (setB b a v) (a + 1) k (by simpa using hk) (by omega)
        (by rw [length_setB]; push_cast at hb ⊢; omega)
      simp only [List.getD_cons_succ]
      have he : a + ((k : Int) + 1) = (a + 1) + (k : Int) := by ring
      push_cast
      rw [he]
      exact hg

theorem length_splice_pos {start delta : Int} (b : List Nat) (h : 0 < delta) :
    (splice b start delta).length = b.length + delta.toNat := by
  unfold splice
  rw [if_pos h]
  simp [List.length_take, List.length_drop]
  omega

theorem length_splice_neg {start delta : Int} (b : List Nat) (hd : delta < 0)
    (hb : start.toNat + (-delta).toNat ≤ b.length) :
    (splice b start delta).length = b.length - (-delta).toNat := by
  unfold splice
  rw [if_neg (by omega)]
  simp [List.length_take, List.length_drop]
  omega

theorem getB_splice_lt {start delta a : Int} (b : List Nat) (h : a < start) :
    getB (splice b start delta) a = getB b a := by
  by_cases h0 : 0 ≤ a
  · have ha : a.toNat < start.toNat := by omega
    have hrep : ∀ rest : List Nat, b.length ≤ a.toNat →
        ((b.take start.toNat ++ rest).getD a.toNat 0 = rest.getD (a.toNat - b.length) 0 ∧
          b.getD a.toNat 0 = 0) := by
      intro rest hl
      have h1 : (b.take start.toNat).length = b.length := by
        simp [List.length_take]; omega
      constructor
      · rw [List.getD_eq_getElem?_getD, List.getD_eq_getElem?_getD,
          List.getElem?_append, if_neg (by omega), h1]
      · rw [List.getD_eq_getElem?_getD, List.getElem?_eq_none hl]
        rfl
    have htk : ∀ rest : List Nat, a.toNat < b.length →
        (b.take start.toNat ++ rest).getD a.toNat 0 = b.getD a.toNat 0 := by
      intro rest hl
      have h1 : a.toNat < (b.take start.toNat).length := by
        simp [List.length_take]; omega
      rw [List.getD_eq_getElem?_getD, List.getD_eq_getElem?_getD,
        List.getElem?_append, if_pos h1, List.getElem?_take, if_pos ha]
    unfold splice getB
    rw [if_pos h0, if_pos h0]
    split
    · rw [List.append_assoc]
      rcases Nat.lt_or_ge a.toNat b.length with hl | hl
      · exact htk _ hl
      · obtain ⟨he1, he2⟩ := hrep (List.replicate delta.toNat 0 ++ b.drop start.toNat) hl
        rw [he1, he2, List.getD_eq_getElem?_getD, List.getElem?_append]
        split
        · rw [List.getElem?_replicate]
          split <;> rfl
        · rw [List.getElem?_drop,
            List.getElem?_eq_none (by simp at *; omega)]
          rfl
    · rcases Nat.lt_or_ge a.toNat b.length with hl | hl
      · exact htk _ hl
      · obtain ⟨he1, he2⟩ := hrep (b.drop (start.toNat + (-delta).toNat)) hl
        rw [he1, he2, List.getD_eq_getElem?_getD, List.getElem?_drop,
          List.getElem?_eq_none (by omega)]
        rfl
  · unfold getB
    rw [if_neg h0, if_neg h0]

theorem length_dagSetI (d : List Bool) (i : Nat) :
    (dagSetI d i).length = d.length := List.length_set d i true

theorem dagGetI_dagSetI_ne {i j : Nat} (d : List Bool) (h : j ≠ i) :
    dagGetI (dagSetI d i) j = dagGetI d j := by
  unfold dagGetI dagSetI
  simp [List.getD_eq_getElem?_getD, List.getElem?_set_ne (Ne.symm h)]

theorem dagGetI_dagSetI_self {i : Nat} (d : List Bool) (h : i < d.length) :
    dagGetI (dagSetI d i) i = true := by
  unfold dagGetI dagSetI
  rw [List.getD_eq_getElem?_getD, List.getElem?_set_self',
    List.getElem?_eq_getElem h]
  rfl

theorem dagGetI_dagSetI_mono {i j : Nat} (d : List Bool)
    (h : dagGetI d j = true) : dagGetI (dagSetI d i) j = true := by
  by_cases hij : j = i
  · subst hij
    by_cases hl : j < d.length
    · exact dagGetI_dagSetI_self d hl
    · unfold dagGetI dagSetI at *
      rwa [List.set_eq_of_length_le (by omega)]
  · rwa [dagGetI_dagSetI_ne d hij]

theorem dagGetI_replicate (n i : Nat) :
    dagGetI (List.replicate n false) i = false := by
  unfold dagGetI
  rw [List.getD_eq_getElem?_getD, List.getElem?_replicate]
  split <;> rfl

/-! ## The walk invariant: basic combinators -/

theorem stepOK_id (start delta : Int) (s : RCState) :
    StepOK start delta s (s, []) := by
  unfold StepOK
  refine ⟨rfl, rfl, fun a _ => rfl, ?_, fun i h => h, ?_, ?_, ?_, ?_⟩ <;> simp

theorem stepOK_comp {start delta : Int} {s : RCState}
    {r1 r2 : RCState × List Ev}
    (h1 : StepOK start delta s r1) (h2 : StepOK start delta r1.1 r2) :
    StepOK start delta s (r2.1, r1.2 ++ r2.2) := by
  obtain ⟨b1, d1, f1, c1, m1, g1, p1, n1, v1⟩ := h1
  obtain ⟨b2, d2, f2, c2, m2, g2, p2, n2, v2⟩ := h2
  refine ⟨b2.trans b1, d2.trans d1, ?_, ?_, ?_, ?_, ?_, ?_, ?_⟩
  · intro a ha
    have ha1 : ∀ e ∈ r1.2, ¬ evWindow e a :=
      fun e he => ha e (List.mem_append_left _ he)
    have ha2 : ∀ e ∈ r2.2, ¬ evWindow e a :=
      fun e he => ha e (List.mem_append_right _ he)
    rw [f2 a ha2, f1 a ha1]
  · intro e he
    rcases List.mem_append.1 he with h | h
    exacts [c1 e h, c2 e h]
  · exact fun i hi => m2 i (m1 i hi)
  · intro e he hlt
    rcases List.mem_append.1 he with h | h
    · exact m2 _ (g1 e h hlt)
    · exact g2 e h (by rw [d1]; exact hlt)
  · intro e he hne
    rcases List.mem_append.1 he with h | h
    · exact p1 e h hne
    · obtain ⟨hp, hu⟩ := p2 e h hne
      refine ⟨hp, ?_⟩
      cases hh : dagGetI s.dag (dagIdx e.loc)
      · rfl
      · rw [m1 _ hh] at hu; exact Bool.noConfusion hu
  · intro hne hbd
    have hne1 : ∀ e ∈ r1.2, e.first ≠ e.second :=
      fun e he => hne e (List.mem_append_left _ he)
    have hne2 : ∀ e ∈ r2.2, e.first ≠ e.second :=
      fun e he => hne e (List.mem_append_right _ he)
    have hbd1 : ∀ e ∈ r1.2, dagIdx e.loc < s.dag.length :=
      fun e he => hbd e (List.mem_append_left _ he)
    have hbd2 : ∀ e ∈ r2.2, dagIdx e.loc < r1.1.dag.length := by
      intro e he; rw [d1]; exact hbd e (List.mem_append_right _ he)
    rw [List.map_append, List.nodup_append]
    refine ⟨n1 hne1 hbd1, n2 hne2 hbd2, ?_⟩
    intro x hx1 hx2
    obtain ⟨e1, he1, rfl⟩ := List.mem_map.1 hx1
    obtain ⟨e2, he2, hx⟩ := List.mem_map.1 hx2
    have hset : dagGetI r1.1.dag (dagIdx e1.loc) = true :=
      g1 e1 he1 (hbd1 e1 he1)
    have hunset : dagGetI r1.1.dag (dagIdx e2.loc) = false :=
      (p2 e2 he2 (hne2 e2 he2)).2
    have hx' : dagIdx e2.loc = dagIdx e1.loc := hx
    rw [hx', hset] at hunset
    exact Bool.noConfusion hunset
  · intro hpw hbd
    rw [List.pairwise_append] at hpw
    obtain ⟨hpw1, hpw2, hcross⟩ := hpw
    have hbd1 : ∀ e ∈ r1.2, 0 ≤ e.loc ∧ e.loc + 4 ≤ (s.buf.length : Int) :=
      fun e he => hbd e (List.mem_append_left _ he)
    have hbd2 : ∀ e ∈ r2.2, 0 ≤ e.loc ∧ e.loc + 4 ≤ (r1.1.buf.length : Int) := by
      intro e he; rw [b1]; exact hbd e (List.mem_append_right _ he)
    intro e he
    rcases List.mem_append.1 he with h | h
    · have hval := v1 hpw1 hbd1 e h
      have hpres : readU32 r2.1.buf e.loc = readU32 r1.1.buf e.loc := by
        apply readU32_congr
        intro k hk
        apply f2
        intro e2 he2
        have hd := hcross e h e2 he2
        unfold evDisj at hd
        unfold evWindow
        omega
      rw [hpres]
      exact hval
    · have hpre : readU32 r1.1.buf e.loc = readU32 s.buf e.loc := by
        apply readU32_congr
        intro k hk
        apply f1
        intro e1 he1
        have hd := hcross e1 he1 e h
        unfold evDisj at hd
        unfold evWindow
        omega
      have hval := v2 hpw2 hbd2 e h
      rw [hval, hpre]

/-! ## The walk invariant for `Straddle` -/

theorem straddle_not_fired {start delta sign first second_ loc : Int}
    (s : RCState) (h : ¬(first ≤ start ∧ start ≤ second_)) :
    Straddle start delta sign first second_ loc s = (s, []) := by
  unfold Straddle
  rw [if_neg h]

theorem straddle_fired {start delta sign first second_ loc : Int}
    (s : RCState) (h : first ≤ start ∧ start ≤ second_) :
    Straddle start delta sign first second_ loc s =
      (⟨writeU32 s.buf loc ((readU32 s.buf loc : Int) + delta * sign),
        dagSetI s.dag (dagIdx loc)⟩,
       [⟨first, second_, loc, sign, dagGetI s.dag (dagIdx loc)⟩]) := by
  unfold Straddle
  rw [if_pos h]

theorem stepOK_straddle {start delta sign first second_ loc : Int}
    {s : RCState} (hs : sign = 1 ∨ sign = -1)
    (hd : dagGetI s.dag (dagIdx loc) = false) :
    StepOK start delta s (Straddle start delta sign first second_ loc s) := by
  unfold Straddle
  split
  case isFalse => exact stepOK_id start delta s
  case isTrue hc =>
    refine ⟨length_writeU32 _ _ _, length_dagSetI _ _, ?_, ?_, ?_, ?_, ?_, ?_, ?_⟩
    · intro a ha
      have hw := ha ⟨first, second_, loc, sign, dagGetI s.dag (dagIdx loc)⟩
        (by simp)
      have hw' : ¬ (loc ≤ a ∧ a < loc + 4) := hw
      exact getB_writeU32_outside s.buf _ (by omega)
    · intro e he
      simp at he
      subst he
      exact ⟨hc, hs⟩
    · intro i hi
      exact dagGetI_dagSetI_mono s.dag hi
    · intro e he hlt
      simp at he
      subst he
      exact dagGetI_dagSetI_self s.dag hlt
    · intro e he _
      simp at he
      subst he
      exact ⟨hd, hd⟩
    · intro _ _
      simp
    · intro _ hbd e he
      simp at he
      subst he
      obtain ⟨h0, h4⟩ := hbd ⟨first, second_, loc, sign, dagGetI s.dag (dagIdx loc)⟩ (by simp)
      simp only
      rw [readU32_writeU32_self s.buf _ h0 (by omega)]
      exact Int.toNat_of_nonneg (Int.emod_nonneg _ (by norm_num))

/-! ## The walk invariant for the record↔vtable straddle block -/

theorem stepOK_tableStraddles {start delta table v : Int} {s : RCState}
    (hg : dagGetI s.dag (dagIdx table) = false) :
    StepOK start delta s
      ((Straddle start delta (-1) v table table
          (Straddle start delta (-1) table v table s).1).1,
        (Straddle start delta (-1) table v table s).2 ++
        (Straddle start delta (-1) v table table
          (Straddle start delta (-1) table v table s).1).2) := by
  by_cases hc1 : table ≤ start ∧ start ≤ v
  · by_cases hc2 : v ≤ start ∧ start ≤ table
    · have h1 : table = start := le_antisymm hc1.1 hc2.2
      have h2 : v = start := le_antisymm hc2.1 hc1.2
      rw [straddle_fired s hc1]
      rw [straddle_fired _ hc2]
      simp only
      refine ⟨?_, ?_, ?_, ?_, ?_, ?_, ?_, ?_, ?_⟩
      · rw [length_writeU32, length_writeU32]
      · rw [length_dagSetI, length_dagSetI]
      · intro a ha
        have hw1 := ha ⟨table, v, table, -1, dagGetI s.dag (dagIdx table)⟩
          (by simp)
        have hw' : ¬ (table ≤ a ∧ a < table + 4) := hw1
        rw [getB_writeU32_outside _ _ (by omega),
          getB_writeU32_outside _ _ (by omega)]
      · intro e he
        simp at he
        rcases he with he | he <;> subst he
        · exact ⟨hc1, Or.inr rfl⟩
        · exact ⟨hc2, Or.inr rfl⟩
      · intro i hi
        exact dagGetI_dagSetI_mono _ (dagGetI_dagSetI_mono _ hi)
      · intro e he hlt
        simp at he
        rcases he with he | he <;> subst he <;>
          exact dagGetI_dagSetI_self _ (by rwa [length_dagSetI])
      · intro e he hne
        simp at he
        rcases he with he | he <;> subst he <;>
          exact absurd (by simp only; omega) hne
      · intro hne _
        exact absurd (by simp only; omega)
          (hne ⟨table, v, table, -1, dagGetI s.dag (dagIdx table)⟩ (by simp))
      · intro hpw _
        have hpw' : List.Pairwise evDisj
            [(⟨table, v, table, -1, dagGetI s.dag (dagIdx table)⟩ : Ev),
             ⟨v, table, table, -1,
               dagGetI (dagSetI s.dag (dagIdx table)) (dagIdx table)⟩] := hpw
        rw [List.pairwise_cons] at hpw'
        have hd := hpw'.1
          ⟨v, table, table, -1,
            dagGetI (dagSetI s.dag (dagIdx table)) (dagIdx table)⟩ (by simp)
        unfold evDisj at hd
        simp only at hd
        omega
    · rw [straddle_not_fired _ hc2]
      simpa using stepOK_straddle (Or.inr rfl) hg
  · rw [straddle_not_fired s hc1]
    exact stepOK_straddle (Or.inr rfl) hg

/-! ## The walk invariant for the recursive walk -/

theorem stepOK_resizeVecElems {start delta : Int}
    {rec : Object → Int → RCState → RCState × List Ev}
    (hrec : ∀ o t s, StepOK start delta s (rec o t s))
    (elemobjectdef : Object) (ref : Int) :
    ∀ (rem i : Nat) (s : RCState),
      StepOK start delta s
        (resizeVecElems start delta rec elemobjectdef ref i rem s) := by
  intro rem
  induction rem with
  | zero => intro i s; exact stepOK_id start delta s
  | succ rem ih =>
    intro i s
    unfold resizeVecElems
    dsimp only
    split
    · exact ih (i + 1) s
    · next hdag =>
      have hd : dagGetI s.dag (dagIdx (ref + 4 + 4 * (i : Int))) = false := by
        simpa using hdag
      exact stepOK_comp
        (stepOK_comp (stepOK_straddle (Or.inl rfl) hd) (hrec _ _ _))
        (ih (i + 1) _)

theorem stepOK_resizeField {start delta : Int} {sch : Schema}
    {rec : Object → Int → RCState → RCState × List Ev}
    (hrec : ∀ o t s, StepOK start delta s (rec o t s))
    (objectdef : Object) (fd : FieldDef) (table : Int) (s : RCState) :
    StepOK start delta s
      (resizeField sch start delta rec objectdef fd table s) := by
  unfold resizeField
  dsimp only
  cases hbt : fd.ftype.base_type
  case None_ => rw [if_pos (by decide)]; exact stepOK_id start delta s
  case UType => rw [if_pos (by decide)]; exact stepOK_id start delta s
  case Bool_ => rw [if_pos (by decide)]; exact stepOK_id start delta s
  case Byte => rw [if_pos (by decide)]; exact stepOK_id start delta s
  case UByte => rw [if_pos (by decide)]; exact stepOK_id start delta s
  case Short => rw [if_pos (by decide)]; exact stepOK_id start delta s
  case UShort => rw [if_pos (by decide)]; exact stepOK_id start delta s
  case Int_ => rw [if_pos (by decide)]; exact stepOK_id start delta s
  case UInt => rw [if_pos (by decide)]; exact stepOK_id start delta s
  case Long_ => rw [if_pos (by decide)]; exact stepOK_id start delta s
  case ULong => rw [if_pos (by decide)]; exact stepOK_id start delta s
  case Float_ => rw [if_pos (by decide)]; exact stepOK_id start delta s
  case Double_ => rw [if_pos (by decide)]; exact stepOK_id start delta s
  case String_ =>
    rw [if_neg (show ¬ BaseType.String_.code ≤ BaseType.Double_.code by decide)]
    split
    · exact stepOK_id start delta s
    rw [if_neg (show ¬ (BaseType.String_ = BaseType.Obj) by decide)]
    simp only [Option.map_none', Option.getD_none]
    rw [if_neg (show ¬ (false = true) by simp)]
    split
    · exact stepOK_id start delta s
    next hdag =>
    have hd : dagGetI s.dag
        (dagIdx (table + (getOptionalFieldOffset s.buf table fd.offset : Int))) =
        false := by simpa using hdag
    exact stepOK_straddle (Or.inl rfl) hd
  case Vector_ =>
    rw [if_neg (show ¬ BaseType.Vector_.code ≤ BaseType.Double_.code by decide)]
    split
    · exact stepOK_id start delta s
    rw [if_neg (show ¬ (BaseType.Vector_ = BaseType.Obj) by decide)]
    simp only [Option.map_none', Option.getD_none]
    rw [if_neg (show ¬ (false = true) by simp)]
    split
    · exact stepOK_id start delta s
    next hdag =>
    have hd : dagGetI s.dag
        (dagIdx (table + (getOptionalFieldOffset s.buf table fd.offset : Int))) =
        false := by simpa using hdag
    split
    · exact stepOK_straddle (Or.inl rfl) hd
    split
    · exact stepOK_straddle (Or.inl rfl) hd
    exact stepOK_comp (stepOK_straddle (Or.inl rfl) hd)
      (stepOK_resizeVecElems hrec _ _ _ 0 _)
  case Obj =>
    rw [if_neg (show ¬ BaseType.Obj.code ≤ BaseType.Double_.code by decide)]
    split
    · exact stepOK_id start delta s
    rw [if_pos (show BaseType.Obj = BaseType.Obj from rfl)]
    simp only [Option.map_some', Option.getD_some]
    split
    · exact stepOK_id start delta s
    split
    · exact stepOK_id start delta s
    next hdag =>
    have hd : dagGetI s.dag
        (dagIdx (table + (getOptionalFieldOffset s.buf table fd.offset : Int))) =
        false := by simpa using hdag
    exact stepOK_comp (stepOK_straddle (Or.inl rfl) hd) (hrec _ _ _)
  case Union_ =>
    rw [if_neg (show ¬ BaseType.Union_.code ≤ BaseType.Double_.code by decide)]
    split
    · exact stepOK_id start delta s
    rw [if_neg (show ¬ (BaseType.Union_ = BaseType.Obj) by decide)]
    simp only [Option.map_none', Option.getD_none]
    rw [if_neg (show ¬ (false = true) by simp)]
    split
    · exact stepOK_id start delta s
    next hdag =>
    have hd : dagGetI s.dag
        (dagIdx (table + (getOptionalFieldOffset s.buf table fd.offset : Int))) =
        false := by simpa using hdag
    exact stepOK_comp (stepOK_straddle (Or.inl rfl) hd) (hrec _ _ _)

theorem stepOK_resizeFields {start delta : Int} {sch : Schema}
    {rec : Object → Int → RCState → RCState × List Ev}
    (hrec : ∀ o t s, StepOK start delta s (rec o t s))
    (objectdef : Object) (table : Int) :
    ∀ (fds : List FieldDef) (s : RCState),
      StepOK start delta s
        (resizeFields sch start delta rec objectdef table fds s) := by
  intro fds
  induction fds with
  | nil => intro s; exact stepOK_id start delta s
  | cons fd rest ih =>
    intro s
    unfold resizeFields
    dsimp only
    exact stepOK_comp (stepOK_resizeField hrec objectdef fd table s) (ih _)

theorem stepOK_resizeTable {start delta : Int} {sch : Schema} :
    ∀ (fuel : Nat) (objectdef : Object) (table : Int) (s : RCState),
      StepOK start delta s
        (ResizeTable sch start delta fuel objectdef table s) := by
  intro fuel
  induction fuel with
  | zero => intro o t s; exact stepOK_id start delta s
  | succ fuel ih =>
    intro objectdef table s
    unfold ResizeTable
    dsimp only
    split
    · exact stepOK_id start delta s
    · next hdag =>
      have hg : dagGetI s.dag (dagIdx table) = false := by simpa using hdag
      split
      · exact stepOK_tableStraddles hg
      · exact stepOK_comp (stepOK_tableStraddles hg)
          (stepOK_resizeFields (fun o t s' => ih o t s') objectdef table
            objectdef.fields _)

theorem stepOK_resizePatch {sch : Schema} {start delta : Int} {fuel : Nat}
    {b : List Nat} :
    StepOK start delta ⟨b, List.replicate (b.length / 4) false⟩
      (resizePatch sch start delta fuel b) := by
  unfold resizePatch
  dsimp only
  exact stepOK_comp
    (stepOK_straddle (Or.inl rfl) (dagGetI_replicate _ _))
    (stepOK_resizeTable fuel sch.root_table (getAnyRoot b) _)

/-! ## Arithmetic of the delta rounding -/

theorem land_mask8 (u : Nat) (hu : u < 4294967296) :
    Nat.land u 4294967288 = u / 8 * 8 := by
  have h1 : (4294967288 : Nat) = (2 ^ 29 - 1) <<< 3 := by decide
  have h2 : u / 8 * 8 = (u >>> 3) <<< 3 := by
    rw [Nat.shiftRight_eq_div_pow, Nat.shiftLeft_eq]
  rw [h1, h2]
  show (u &&& (2 ^ 29 - 1) <<< 3) = u >>> 3 <<< 3
  apply Nat.eq_of_testBit_eq
  intro i
  rw [Nat.testBit_land, Nat.testBit_shiftLeft, Nat.testBit_shiftLeft,
    Nat.testBit_two_pow_sub_one, Nat.testBit_shiftRight]
  by_cases h3 : 3 ≤ i
  · rw [Nat.add_sub_cancel' h3]
    by_cases h29 : i - 3 < 29
    · simp [h3, h29]
    · have hbig : u.testBit i = false :=
        Nat.testBit_lt_two_pow
          (lt_of_lt_of_le hu
            (Nat.pow_le_pow_right (show 0 < 2 by norm_num)
              (show 32 ≤ i by omega)))
      simp [h3, h29, hbig]
  · have h3' : ¬ i ≥ 3 := h3
    simp [h3']

theorem roundDelta_eq (d : Int) (h1 : -2147483648 ≤ d) (h2 : d ≤ 2147483640) :
    roundDelta d = 8 * ((d + 7) / 8) := by
  unfold roundDelta
  have hm0 : 0 ≤ (d + 7).emod 4294967296 := Int.emod_nonneg _ (by norm_num)
  have hm1 : (d + 7).emod 4294967296 < 4294967296 :=
    Int.emod_lt_of_pos _ (by norm_num)
  rw [land_mask8 _ (by omega)]
  have hq := Int.ediv_add_emod (d + 7) 8
  have hr0 : 0 ≤ (d + 7) % 8 := Int.emod_nonneg _ (by norm_num)
  have hr1 : (d + 7) % 8 < 8 := Int.emod_lt_of_pos _ (by norm_num)
  rcases le_or_lt 0 (d + 7) with hpos | hneg
  · have hm : (d + 7).emod 4294967296 = d + 7 :=
      Int.emod_eq_of_lt hpos (by omega)
    rw [hm]
    unfold toI32
    split <;> omega
  · have hm : (d + 7).emod 4294967296 = d + 7 + 4294967296 := by
      have ha : (d + 7 + 4294967296 * 1) % 4294967296 = (d + 7) % 4294967296 :=
        Int.add_mul_emod_self_left _ _ _
      have hb : (d + 7 + 4294967296 * 1) % 4294967296 =
          (d + 7 + 4294967296) % 4294967296 := by norm_num
      have hc : (d + 7 + 4294967296) % 4294967296 = d + 7 + 4294967296 :=
        Int.emod_eq_of_lt (by omega) (by omega)
      calc (d + 7).emod 4294967296 = (d + 7) % 4294967296 := rfl
        _ = (d + 7 + 4294967296 * 1) % 4294967296 := ha.symm
        _ = (d + 7 + 4294967296) % 4294967296 := hb
        _ = d + 7 + 4294967296 := hc
    rw [hm]
    unfold toI32
    split <;> omega

/-! ## Helper lemmas about single straddle checks -/

theorem straddle_loc_events {start delta sign first second_ loc : Int}
    (s : RCState) :
    ∀ e ∈ (Straddle start delta sign first second_ loc s).2, e.loc = loc := by
  unfold Straddle
  split <;> simp

theorem straddle_frame {start delta sign first second_ loc : Int}
    (s : RCState) {a : Int} (h : a < loc ∨ loc + 4 ≤ a) :
    getB (Straddle start delta sign first second_ loc s).1.buf a =
      getB s.buf a := by
  unfold Straddle
  split
  · exact getB_writeU32_outside _ _ h
  · rfl

theorem straddle_buflen {start delta sign first second_ loc : Int}
    (s : RCState) :
    (Straddle start delta sign first second_ loc s).1.buf.length =
      s.buf.length := by
  unfold Straddle
  split
  · exact length_writeU32 _ _ _
  · rfl

/-! ## Claim theorems -/

/-- C2: during a resize with (rounded) delta `delta` and insertion point
`start`, (i) every offset slot the walk patches was a straddling slot — the
compared pair satisfied `first ≤ start ≤ second` — with direction `+1` or
`-1`, and its stored 32-bit value was adjusted by exactly `delta * sign`
(assuming patched slots lie in bounds and do not overlap); (ii) every byte
outside the patched slots' windows is unchanged, so a slot whose straddle
check does not fire is left untouched; (iii) the patching primitive
`Straddle` fires exactly on the straddle condition, adjusting by
`delta * sign` and marking the visit bit. -/
theorem C2_straddle_adjust (sch : Schema) (start delta : Int) (fuel : Nat)
    (b : List Nat)
    (hpw : (resizePatch sch start delta fuel b).2.Pairwise evDisj)
    (hbd : ∀ e ∈ (resizePatch sch start delta fuel b).2,
      0 ≤ e.loc ∧ e.loc + 4 ≤ (b.length : Int)) :
    (∀ e ∈ (resizePatch sch start delta fuel b).2,
      (e.first ≤ start ∧ start ≤ e.second) ∧ (e.sign = 1 ∨ e.sign = -1) ∧
      (readU32 (resizePatch sch start delta fuel b).1.buf e.loc : Int) =
        ((readU32 b e.loc : Int) + delta * e.sign).emod 4294967296) ∧
    (∀ a : Int, (∀ e ∈ (resizePatch sch start delta fuel b).2, ¬ evWindow e a) →
      getB (resizePatch sch start delta fuel b).1.buf a = getB b a) ∧
    (∀ (first second_ loc sign : Int) (s : RCState),
      (first ≤ start ∧ start ≤ second_ →
        Straddle start delta sign first second_ loc s =
          (⟨writeU32 s.buf loc ((readU32 s.buf loc : Int) + delta * sign),
            dagSetI s.dag (dagIdx loc)⟩,
           [⟨first, second_, loc, sign, dagGetI s.dag (dagIdx loc)⟩])) ∧
      (¬(first ≤ start ∧ start ≤ second_) →
        Straddle start delta sign first second_ loc s = (s, []))) := by
  obtain ⟨hb, hdg, hf, hc, hm, hg, hp, hn, hv⟩ :=
    (@stepOK_resizePatch sch start delta fuel b)
  refine ⟨?_, ?_, ?_⟩
  · intro e he
    exact ⟨(hc e he).1, (hc e he).2, hv hpw hbd e he⟩
  · intro a ha
    exact hf a ha
  · intro first second_ loc sign s
    exact ⟨fun h => straddle_fired s h, fun h => straddle_not_fired s h⟩

/-- C3: the requested delta is rounded up toward +∞ to the nearest multiple
of 8; a zero rounded delta leaves the buffer entirely unchanged with no slot
patched; otherwise the buffer size changes by exactly the rounded delta, so
the new size is congruent to the old size modulo 8. -/
theorem C3_alignment_rounding (sch : Schema) (start d : Int) (fuel : Nat)
    (b : List Nat) (hd1 : -2147483648 ≤ d) (hd2 : d ≤ 2147483640)
    (hshrink : roundDelta d < 0 →
      start.toNat + (-(roundDelta d)).toNat ≤ b.length) :
    (roundDelta d) % 8 = 0 ∧ d ≤ roundDelta d ∧ roundDelta d < d + 8 ∧
    (roundDelta d = 0 → ResizeContextRun sch start d fuel b = (b, [])) ∧
    (roundDelta d ≠ 0 →
      ((ResizeContextRun sch start d fuel b).1.length : Int) =
        (b.length : Int) + roundDelta d) ∧
    ((ResizeContextRun sch start d fuel b).1.length : Int) % 8 =
      (b.length : Int) % 8 := by
  have hr := roundDelta_eq d hd1 hd2
  have hq := Int.ediv_add_emod (d + 7) 8
  have hr0 : 0 ≤ (d + 7) % 8 := Int.emod_nonneg _ (by norm_num)
  have hr1 : (d + 7) % 8 < 8 := Int.emod_lt_of_pos _ (by norm_num)
  have h8 : (roundDelta d) % 8 = 0 := by omega
  have hle : d ≤ roundDelta d := by omega
  have hlt : roundDelta d < d + 8 := by omega
  have hlen : ∀ hnz : roundDelta d ≠ 0,
      ((ResizeContextRun sch start d fuel b).1.length : Int) =
        (b.length : Int) + roundDelta d := by
    intro hnz
    unfold ResizeContextRun
    dsimp only
    rw [if_neg hnz]
    obtain ⟨hb, _, _, _, _, _, _, _, _⟩ :=
      (@stepOK_resizePatch sch start (roundDelta d) fuel b)
    rcases lt_trichotomy (roundDelta d) 0 with hc | hc | hc
    · rw [length_splice_neg _ hc (by rw [hb]; exact hshrink hc)]
      have hb' : (resizePatch sch start (roundDelta d) fuel b).1.buf.length =
          b.length := hb
      omega
    · exact absurd hc hnz
    · rw [length_splice_pos _ hc]
      have hb' : (resizePatch sch start (roundDelta d) fuel b).1.buf.length =
          b.length := hb
      omega
  refine ⟨h8, hle, hlt, ?_, hlen, ?_⟩
  · intro hz
    unfold ResizeContextRun
    dsimp only
    rw [if_pos hz]
  · by_cases hz : roundDelta d = 0
    · unfold ResizeContextRun
      dsimp only
      rw [if_pos hz]
    · have := hlen hz
      omega

/-- C4: during every resize walk, no visit bit is set twice and no offset
slot is patched twice: every patched slot's visit bit was still clear at the
moment of the patch, and the patched slots' bitset indices are pairwise
distinct.  The hypotheses encode the spec's data-model invariants: every
straddle check compares two distinct addresses (a record's vtable lies at a
strictly lower address than the record), and patched slots lie inside the
buffer. -/
theorem C4_single_visit (sch : Schema) (start delta : Int) (fuel : Nat)
    (b : List Nat)
    (hne : ∀ e ∈ (resizePatch sch start delta fuel b).2, e.first ≠ e.second)
    (hbd : ∀ e ∈ (resizePatch sch start delta fuel b).2,
      dagIdx e.loc < b.length / 4) :
    (∀ e ∈ (resizePatch sch start delta fuel b).2, e.prevBit = false) ∧
    ((resizePatch sch start delta fuel b).2.map
      (fun e => dagIdx e.loc)).Nodup := by
  obtain ⟨hb, hdg, hf, hc, hm, hg, hp, hn, hv⟩ :=
    (@stepOK_resizePatch sch start delta fuel b)
  have hlen : (List.replicate (b.length / 4) false).length = b.length / 4 :=
    List.length_replicate _ _
  refine ⟨fun e he => (hp e he (hne e he)).1, ?_⟩
  exact hn hne (fun e he => by rw [hlen]; exact hbd e he)

/-- C5: when the resize walk reaches a record whose address is at or above
the insertion point, it returns right after the record↔vtable straddle
checks: every event it logs patches the record's own soffset slot, every
byte outside that slot's 4-byte window is unchanged, and no field offset
slot of the record is read or modified. -/
theorem C5_early_termination (sch : Schema) (start delta : Int) (fuel : Nat)
    (objectdef : Object) (table : Int) (s : RCState) (h : start ≤ table) :
    (∀ e ∈ (ResizeTable sch start delta fuel objectdef table s).2,
      e.loc = table) ∧
    (∀ a : Int, (a < table ∨ table + 4 ≤ a) →
      getB (ResizeTable sch start delta fuel objectdef table s).1.buf a =
        getB s.buf a) ∧
    (ResizeTable sch start delta fuel objectdef table s).1.buf.length =
      s.buf.length := by
  match fuel with
  | 0 =>
    refine ⟨?_, ?_, rfl⟩ <;> simp [ResizeTable]
  | fuel + 1 =>
    unfold ResizeTable
    dsimp only
    rw [if_pos h]
    split
    · refine ⟨?_, ?_, rfl⟩ <;> simp
    · refine ⟨?_, ?_, ?_⟩
      · intro e he
        rcases List.mem_append.1 he with h1 | h1
        · exact straddle_loc_events s e h1
        · exact straddle_loc_events _ e h1
      · intro a ha
        rw [straddle_frame _ ha, straddle_frame _ ha]
      · rw [straddle_buflen, straddle_buflen]

/-- C6: the per-field resize step descends into a vector's element offset
slots only when the element type is `Obj`; for any other element type — in
particular for a vector of strings — the step performs at most the straddle
check on the field's own offset slot: every logged event patches that slot,
all other bytes keep their values, and in particular every element offset
slot of the vector (which lies at or beyond the vector's address) keeps its
stored value. -/
theorem C6_vector_of_strings_no_descent (sch : Schema) (start delta : Int)
    (rec : Object → Int → RCState → RCState × List Ev)
    (objectdef : Object) (fd : FieldDef) (table : Int) (s : RCState)
    (hv : fd.ftype.base_type = .Vector_) (he : fd.ftype.element ≠ .Obj) :
    (∀ e ∈ (resizeField sch start delta rec objectdef fd table s).2,
      e.loc = table + (getOptionalFieldOffset s.buf table fd.offset : Int)) ∧
    (∀ a : Int,
      (a < table + (getOptionalFieldOffset s.buf table fd.offset : Int) ∨
        table + (getOptionalFieldOffset s.buf table fd.offset : Int) + 4 ≤ a) →
      getB (resizeField sch start delta rec objectdef fd table s).1.buf a =
        getB s.buf a) ∧
    (∀ i : Nat,
      readU32 (resizeField sch start delta rec objectdef fd table s).1.buf
        (table + (getOptionalFieldOffset s.buf table fd.offset : Int) +
          (readU32 s.buf
            (table + (getOptionalFieldOffset s.buf table fd.offset : Int)) : Int)
          + 4 + 4 * (i : Int)) =
      readU32 s.buf
        (table + (getOptionalFieldOffset s.buf table fd.offset : Int) +
          (readU32 s.buf
            (table + (getOptionalFieldOffset s.buf table fd.offset : Int)) : Int)
          + 4 + 4 * (i : Int))) := by
  have hmain :
      (∀ e ∈ (resizeField sch start delta rec objectdef fd table s).2,
        e.loc = table + (getOptionalFieldOffset s.buf table fd.offset : Int)) ∧
      (∀ a : Int,
        (a < table + (getOptionalFieldOffset s.buf table fd.offset : Int) ∨
          table + (getOptionalFieldOffset s.buf table fd.offset : Int) + 4 ≤ a) →
        getB (resizeField sch start delta rec objectdef fd table s).1.buf a =
          getB s.buf a) := by
    unfold resizeField
    dsimp only
    rw [hv]
    rw [if_neg (show ¬ BaseType.Vector_.code ≤ BaseType.Double_.code by decide)]
    split
    · constructor <;> simp
    rw [if_neg (show ¬ (BaseType.Vector_ = BaseType.Obj) by decide)]
    simp only [Option.map_none', Option.getD_none]
    rw [if_neg (show ¬ (false = true) by simp)]
    split
    · constructor <;> simp
    exact ⟨straddle_loc_events s, fun a ha => straddle_frame s ha⟩
  refine ⟨hmain.1, hmain.2, ?_⟩
  intro i
  apply readU32_congr
  intro k hk
  apply hmain.2
  have h0 : (0 : Int) ≤ (getOptionalFieldOffset s.buf table fd.offset : Int) :=
    Int.natCast_nonneg _
  have h1 : (0 : Int) ≤ (readU32 s.buf
      (table + (getOptionalFieldOffset s.buf table fd.offset : Int)) : Int) :=
    Int.natCast_nonneg _
  right
  have h2 : (0 : Int) ≤ 4 * (i : Int) := by positivity
  omega

/-- Bytes below the insertion point are unchanged by a full
`ResizeContext` run whose patched slots avoid them. -/
theorem resizeCtxRun_getB_frame (sch : Schema) (start delta : Int)
    (fuel : Nat) (b : List Nat) (a : Int) (ha : a < start)
    (hf : ∀ e ∈ (resizePatch sch start (roundDelta delta) fuel b).2,
      ¬ evWindow e a) :
    getB (ResizeContextRun sch start delta fuel b).1 a = getB b a := by
  unfold ResizeContextRun
  dsimp only
  split
  · rfl
  · rw [getB_splice_lt _ ha]
    obtain ⟨_, _, hfr, _, _, _, _, _, _⟩ :=
      (@stepOK_resizePatch sch start (roundDelta delta) fuel b)
    exact hfr a hf

/-- The event log of a full `ResizeContext` run is the patch phase's log, or
empty when the rounded delta is zero. -/
theorem resizeCtxRun_events (sch : Schema) (start delta : Int) (fuel : Nat)
    (b : List Nat) :
    (ResizeContextRun sch start delta fuel b).2 = [] ∨
    (ResizeContextRun sch start delta fuel b).2 =
      (resizePatch sch start (roundDelta delta) fuel b).2 := by
  unfold ResizeContextRun
  dsimp only
  split
  · exact Or.inl rfl
  · exact Or.inr rfl

/-- C9: `SetString` never writes the string's 4-byte length header (the word
immediately before the insertion point `start = str + 4`): whether the buffer
grows, shrinks or keeps its size, the header still holds the previous length
afterwards.  The hypothesis states that no slot patched by the resize walk
lies in the header's window — the header of a well-formed string is not an
offset slot. -/
theorem C9_length_header_untouched (sch : Schema) (val : List Nat)
    (str : Int) (fuel : Nat) (b : List Nat)
    (hframe : ∀ e ∈ (resizePatch sch (str + 4)
        (roundDelta ((val.length : Int) - (readU32 b str : Int))) fuel b).2,
      e.loc + 4 ≤ str ∨ str + 4 ≤ e.loc) :
    readU32 (SetString sch val str fuel b).1 str = readU32 b str := by
  have hwin : ∀ (k : Nat), k < 4 →
      ∀ e ∈ (resizePatch sch (str + 4)
          (roundDelta ((val.length : Int) - (readU32 b str : Int))) fuel b).2,
        ¬ evWindow e (str + (k : Int)) := by
    intro k hk e he
    have := hframe e he
    unfold evWindow
    omega
  unfold SetString
  dsimp only
  split
  · apply readU32_congr
    intro k hk
    rw [getB_writeBytesL_outside _ _ _ _ (Or.inl (by omega))]
    have hb2 : getB (if (val.length : Int) - (readU32 b str : Int) < 0 then
        memsetZ (ResizeContextRun sch (str + 4)
          ((val.length : Int) - (readU32 b str : Int)) fuel b).1 (str + 4)
          (readU32 (ResizeContextRun sch (str + 4)
            ((val.length : Int) - (readU32 b str : Int)) fuel b).1 str)
        else (ResizeContextRun sch (str + 4)
          ((val.length : Int) - (readU32 b str : Int)) fuel b).1)
        (str + (k : Int)) =
        getB (ResizeContextRun sch (str + 4)
          ((val.length : Int) - (readU32 b str : Int)) fuel b).1
          (str + (k : Int)) := by
      split
      · unfold memsetZ
        rw [getB_writeBytesL_outside _ _ _ _ (Or.inl (by omega))]
      · rfl
    rw [hb2]
    exact resizeCtxRun_getB_frame sch (str + 4) _ fuel b _ (by omega)
      (hwin k hk)
  · apply readU32_congr
    intro k hk
    rw [getB_writeBytesL_outside _ _ _ _ (Or.inl (by omega))]

/-- Length of the buffer after a growing `ResizeContext` run. -/
theorem resizeCtxRun_length_pos (sch : Schema) (start delta : Int)
    (fuel : Nat) (b : List Nat) (h : 0 < roundDelta delta) :
    (ResizeContextRun sch start delta fuel b).1.length =
      b.length + (roundDelta delta).toNat := by
  unfold ResizeContextRun
  dsimp only
  rw [if_neg (by omega)]
  rw [length_splice_pos _ h]
  obtain ⟨hb, _, _, _, _, _, _, _, _⟩ :=
    (@stepOK_resizePatch sch start (roundDelta delta) fuel b)
  rw [hb]

/-- Reading back four bytes just written. -/
theorem readU32_writeBytesL4 (b : List Nat) (a : Int) (c0 c1 c2 c3 : Nat)
    (h0 : 0 ≤ a) (hb : a.toNat + 4 ≤ b.length) :
    readU32 (writeBytesL b a [c0, c1, c2, c3]) a =
      c0 + 256 * c1 + 65536 * c2 + 16777216 * c3 := by
  have g0 := getB_writeBytesL_at [c0, c1, c2, c3] b a 0 (by norm_num) h0
    (by omega)
  have g1 := getB_writeBytesL_at [c0, c1, c2, c3] b a 1 (by norm_num) h0
    (by omega)
  have g2 := getB_writeBytesL_at [c0, c1, c2, c3] b a 2 (by norm_num) h0
    (by omega)
  have g3 := getB_writeBytesL_at [c0, c1, c2, c3] b a 3 (by norm_num) h0
    (by omega)
  simp only [Nat.cast_zero, Nat.cast_one, Nat.cast_ofNat, add_zero,
    List.getD_cons_zero, List.getD_cons_succ] at g0 g1 g2 g3
  unfold readU32
  rw [g0, g1, g2, g3]

/-- C7: resizing a scalar `int32` vector `[10, 20, 30]` to length 5 with fill
value 99 rewrites the length header to 5, initializes the two new element
slots with 99, and leaves the three existing elements unchanged.  The
hypothesis on the walk's event log states that no patched offset slot lies
inside the vector's header or elements — true of well-formed buffers, where
a scalar vector contains no offset slots. -/
theorem C7_resize_scalar_vector (sch : Schema) (fuel : Nat) (vec : Int)
    (b : List Nat) (h0 : 0 ≤ vec)
    (hlen : readU32 b vec = 3)
    (hel1 : readU32 b (vec + 4) = 10)
    (hel2 : readU32 b (vec + 8) = 20)
    (hel3 : readU32 b (vec + 12) = 30)
    (hb : vec.toNat + 16 ≤ b.length)
    (hframe : ∀ e ∈ (resizePatch sch (vec + 16) (roundDelta 8) fuel b).2,
      e.loc + 4 ≤ vec ∨ vec + 16 ≤ e.loc) :
    readU32 (ResizeVector sch 5 (encodeLE 4 99) 4 vec fuel b).1 vec = 5 ∧
    readU32 (ResizeVector sch 5 (encodeLE 4 99) 4 vec fuel b).1 (vec + 4) = 10 ∧
    readU32 (ResizeVector sch 5 (encodeLE 4 99) 4 vec fuel b).1 (vec + 8) = 20 ∧
    readU32 (ResizeVector sch 5 (encodeLE 4 99) 4 vec fuel b).1 (vec + 12) = 30 ∧
    readU32 (ResizeVector sch 5 (encodeLE 4 99) 4 vec fuel b).1 (vec + 16) = 99 ∧
    readU32 (ResizeVector sch 5 (encodeLE 4 99) 4 vec fuel b).1 (vec + 20) = 99
    := by
  have hRV : ResizeVector sch 5 (encodeLE 4 99) 4 vec fuel b =
      (fillNewElems (encodeLE 4 99) (vec + 16) 4 0 2
        (writeU32 (ResizeContextRun sch (vec + 16) 8 fuel b).1 vec 5),
       (ResizeContextRun sch (vec + 16) 8 fuel b).2) := by
    unfold ResizeVector
    dsimp only
    rw [hlen]
    norm_num
    rw [show vec + 4 + 12 = vec + 16 by ring]
    exact ⟨rfl, rfl⟩
  have hfill : ∀ (b2 : List Nat),
      fillNewElems (encodeLE 4 99) (vec + 16) 4 0 2 b2 =
        writeBytesL (writeBytesL b2 (vec + 16) [99, 0, 0, 0])
          (vec + 20) [99, 0, 0, 0] := by
    intro b2
    have henc : encodeLE 4 99 = [99, 0, 0, 0] := rfl
    unfold fillNewElems
    unfold fillNewElems
    unfold fillNewElems
    rw [henc]
    norm_num
    rw [show vec + 16 + 4 = vec + 20 by ring]
  have h8 : roundDelta 8 = 8 := by decide
  have hlenR : (ResizeContextRun sch (vec + 16) 8 fuel b).1.length =
      b.length + 8 := by
    rw [resizeCtxRun_length_pos sch (vec + 16) 8 fuel b (by rw [h8]; norm_num),
      h8]
    rfl
  have hbelow : ∀ a : Int, 0 ≤ a → a < vec + 16 →
      (∀ e ∈ (resizePatch sch (vec + 16) (roundDelta 8) fuel b).2,
        ¬ evWindow e a) →
      getB (ResizeContextRun sch (vec + 16) 8 fuel b).1 a = getB b a := by
    intro a ha0 ha hf
    exact resizeCtxRun_getB_frame sch (vec + 16) 8 fuel b a ha
      (by rw [h8]; rw [h8] at hf; exact hf)
  rw [hRV]
  dsimp only
  have hwrites : ∀ (a : Int), vec + 4 ≤ a → a < vec + 16 →
      getB (fillNewElems (encodeLE 4 99) (vec + 16) 4 0 2
        (writeU32 (ResizeContextRun sch (vec + 16) 8 fuel b).1 vec 5)) a =
      getB b a := by
    intro a ha1 ha2
    rw [hfill]
    rw [getB_writeBytesL_outside _ _ _ _ (Or.inl (by omega))]
    rw [getB_writeBytesL_outside _ _ _ _ (Or.inl (by omega))]
    rw [getB_writeU32_outside _ _ (Or.inr (by omega))]
    apply hbelow a (by omega) ha2
    intro e he
    have := hframe e he
    unfold evWindow
    omega
  refine ⟨?_, ?_, ?_, ?_, ?_, ?_⟩
  · rw [hfill]
    rw [@readU32_congr _ (writeU32
        (ResizeContextRun sch (vec + 16) 8 fuel b).1 vec 5) _ ?_]
    · rw [readU32_writeU32_self _ _ h0 (by rw [hlenR]; omega)]
      decide
    · intro k hk
      rw [getB_writeBytesL_outside _ _ _ _ (Or.inl (by omega))]
      rw [getB_writeBytesL_outside _ _ _ _ (Or.inl (by omega))]
  · rw [@readU32_congr _ b _ (fun k hk => by
      have := hwrites (vec + 4 + (k : Int)) (by omega) (by omega)
      simpa [add_assoc] using this)]
    exact hel1
  · rw [@readU32_congr _ b _ (fun k hk => by
      have := hwrites (vec + 8 + (k : Int)) (by omega) (by omega)
      simpa [add_assoc] using this)]
    exact hel2
  · rw [@readU32_congr _ b _ (fun k hk => by
      have := hwrites (vec + 12 + (k : Int)) (by omega) (by omega)
      simpa [add_assoc] using this)]
    exact hel3
  · rw [hfill]
    rw [@readU32_congr _ (writeBytesL
        (writeU32 (ResizeContextRun sch (vec + 16) 8 fuel b).1 vec 5)
        (vec + 16) [99, 0, 0, 0]) _ (fun k hk => by
      rw [getB_writeBytesL_outside _ _ _ _ (Or.inl (by omega))])]
    rw [readU32_writeBytesL4 _ _ _ _ _ _ (by omega)
      (by rw [length_writeU32, hlenR]; omega)]
  · rw [hfill]
    rw [readU32_writeBytesL4 _ _ _ _ _ _ (by omega)
      (by rw [length_writeBytesL, length_writeU32, hlenR]; omega)]

/-- C1 (failing input): on the serialized record `T1 { name: "ab" }`,
`SetString(schema, "abcdef", str, buf)` grows the buffer by exactly 8 bytes
and copies the new bytes — but it never rewrites the string's 32-bit length
header, which still holds 2; the string field therefore still reads back as
the 2-byte string "ab" (the first two of the copied bytes), not as the
6-byte string "abcdef" that the claim and the spec scenario promise. -/
theorem C1_setString_failing_input :
    (SetString sch1 [97, 98, 99, 100, 101, 102] 20 10 bufT1).1.length =
      bufT1.length + 8 ∧
    GetFieldSaddr (SetString sch1 [97, 98, 99, 100, 101, 102] 20 10 bufT1).1
      (getAnyRoot (SetString sch1 [97, 98, 99, 100, 101, 102] 20 10 bufT1).1)
      ⟨"name", 4, ⟨.String_, .None_, 0⟩, 0, 0⟩ = some 20 ∧
    readU32 (SetString sch1 [97, 98, 99, 100, 101, 102] 20 10 bufT1).1 20 = 2 ∧
    strContent (SetString sch1 [97, 98, 99, 100, 101, 102] 20 10 bufT1).1 20 =
      [97, 98] ∧
    (List.range 6).map (fun i =>
      getB (SetString sch1 [97, 98, 99, 100, 101, 102] 20 10 bufT1).1
        (24 + (i : Int))) = [97, 98, 99, 100, 101, 102] := by
  refine ⟨by decide, by decide, by decide, by decide, by decide⟩

/-- C8 (failing input): `SetAnyFieldS` on a present Float field with value
string "3.5" (`strtod` parses 3.5, `StringToInt` parses 3): the missing
`break` makes the Float case fall through into the integer branch, so the
field is stored twice — first the float parse 3.5, then
`static_cast<float>(StringToInt(val)) = 3.0` — and the bytes finally hold
the encoding of 3, not of 3.5.  (The float encoder here is a concrete
injective stand-in; the write log is encoder-independent.) -/
theorem C8_setAnyFieldS_fall_through :
    (SetAnyFieldS (fun _ => (7 : Rat) / 2) (fun _ => 3)
      (fun q => [q.num.natAbs % 256, q.den % 256, 0, 0])
      (fun _ => [0, 0, 0, 0]) bufT4 8 fdFloat
      [51, 46, 53]).2 = [.f32W ((7 : Rat) / 2), .f32W ((3 : Int) : Rat)] ∧
    (List.range 4).map (fun i =>
      getB (SetAnyFieldS (fun _ => (7 : Rat) / 2) (fun _ => 3)
        (fun q => [q.num.natAbs % 256, q.den % 256, 0, 0])
        (fun _ => [0, 0, 0, 0]) bufT4 8 fdFloat
        [51, 46, 53]).1 (12 + (i : Int))) = [3, 1, 0, 0] := by
  refine ⟨rfl, by decide⟩

/-- C10: for a String-typed field absent from the record's vtable, both
coercing getters guard the null string pointer: `GetAnyFieldI` returns 0 and
`GetAnyFieldF` returns 0.0, for every possible parser — neither ever invokes
`StringToInt`/`strtod` on the missing string. -/
theorem C10_absent_string_field (readF32 readF64 : List Nat → Int → Rat)
    (stringToInt : List Nat → Int) (strtod : List Nat → Rat)
    (b : List Nat) (table : Int) (fd : FieldDef)
    (hs : fd.ftype.base_type = .String_)
    (habs : getOptionalFieldOffset b table fd.offset = 0) :
    GetAnyFieldI readF32 readF64 stringToInt b table fd = 0 ∧
    GetAnyFieldF readF32 readF64 stringToInt strtod b table fd = 0 := by
  have hnull : GetFieldSaddr b table fd = none := by
    unfold GetFieldSaddr
    dsimp only
    rw [if_pos habs]
  constructor
  · unfold GetAnyFieldI
    rw [hs, hnull]
  · unfold GetAnyFieldF
    rw [hs, hnull]

/-- Witness for C2 on the concrete buffer `bufT2`: growing the string at 24
by 8 bytes patches exactly the straddling `other` field slot at address 20,
adjusting its stored offset by +8. -/
theorem C2_straddle_adjust_witness :
    ((resizePatch sch2 28 8 10 bufT2).2.Pairwise evDisj) ∧
    (∀ e ∈ (resizePatch sch2 28 8 10 bufT2).2,
      0 ≤ e.loc ∧ e.loc + 4 ≤ (bufT2.length : Int)) ∧
    (∀ e ∈ (resizePatch sch2 28 8 10 bufT2).2,
      (e.first ≤ 28 ∧ 28 ≤ e.second) ∧ (e.sign = 1 ∨ e.sign = -1) ∧
      (readU32 (resizePatch sch2 28 8 10 bufT2).1.buf e.loc : Int) =
        ((readU32 bufT2 e.loc : Int) + 8 * e.sign).emod 4294967296) :=
  ⟨by decide, by decide,
    (C2_straddle_adjust sch2 28 8 10 bufT2 (by decide) (by decide)).1⟩

/-- Witness for C3: a requested shrink of −9 rounds to −8, and the concrete
16-byte buffer shrinks by exactly 8 bytes. -/
theorem C3_alignment_rounding_witness :
    ((-2147483648 : Int) ≤ -9 ∧ (-9 : Int) ≤ 2147483640) ∧
    (roundDelta (-9) < 0 →
      (0 : Int).toNat + (-(roundDelta (-9))).toNat ≤
        (List.replicate 16 0).length) ∧
    ((roundDelta (-9)) % 8 = 0 ∧ (-9 : Int) ≤ roundDelta (-9) ∧
      roundDelta (-9) < -9 + 8 ∧
      (roundDelta (-9) = 0 →
        ResizeContextRun sch1 0 (-9) 1 (List.replicate 16 0) =
          (List.replicate 16 0, [])) ∧
      (roundDelta (-9) ≠ 0 →
        ((ResizeContextRun sch1 0 (-9) 1 (List.replicate 16 0)).1.length : Int) =
          ((List.replicate 16 0).length : Int) + roundDelta (-9)) ∧
      ((ResizeContextRun sch1 0 (-9) 1 (List.replicate 16 0)).1.length : Int) % 8 =
        ((List.replicate 16 0).length : Int) % 8) :=
  ⟨⟨by decide, by decide⟩, by decide,
    C3_alignment_rounding sch1 0 (-9) 1 (List.replicate 16 0)
      (by decide) (by decide) (by decide)⟩

/-- Witness for C4 on `bufT2`: the single patched slot (address 20) had a
clear visit bit and the patched bitset indices are distinct. -/
theorem C4_single_visit_witness :
    (∀ e ∈ (resizePatch sch2 28 8 10 bufT2).2, e.first ≠ e.second) ∧
    (∀ e ∈ (resizePatch sch2 28 8 10 bufT2).2,
      dagIdx e.loc < bufT2.length / 4) ∧
    ((∀ e ∈ (resizePatch sch2 28 8 10 bufT2).2, e.prevBit = false) ∧
      ((resizePatch sch2 28 8 10 bufT2).2.map
        (fun e => dagIdx e.loc)).Nodup) :=
  ⟨by decide, by decide,
    C4_single_visit sch2 28 8 10 bufT2 (by decide) (by decide)⟩

/-- Witness for C5: walking the record at address 12 of `bufT2` with
insertion point 5 (≤ 12) fires only the record↔vtable check at the record's
own slot and touches no other byte. -/
theorem C5_early_termination_witness :
    ((5 : Int) ≤ 12) ∧
    ((∀ e ∈ (ResizeTable sch2 5 8 3 obj2 12
        ⟨bufT2, List.replicate 9 false⟩).2, e.loc = 12) ∧
      (∀ a : Int, (a < 12 ∨ 12 + 4 ≤ a) →
        getB (ResizeTable sch2 5 8 3 obj2 12
          ⟨bufT2, List.replicate 9 false⟩).1.buf a =
          getB (⟨bufT2, List.replicate 9 false⟩ : RCState).buf a) ∧
      (ResizeTable sch2 5 8 3 obj2 12
        ⟨bufT2, List.replicate 9 false⟩).1.buf.length =
        (⟨bufT2, List.replicate 9 false⟩ : RCState).buf.length) :=
  ⟨by decide,
    C5_early_termination sch2 5 8 3 obj2 12 ⟨bufT2, List.replicate 9 false⟩
      (by decide)⟩

/-- Witness for C6: a present vector-of-strings field (slot at address 8,
stored offset 8, insertion point 10) gets exactly its own slot patched and
nothing else, with the element slots of the vector unchanged. -/
theorem C6_vector_of_strings_witness :
    (fdVecStr.ftype.base_type = BaseType.Vector_) ∧
    (fdVecStr.ftype.element ≠ BaseType.Obj) ∧
    ((∀ e ∈ (resizeField sch2 10 8 (fun _ _ s => (s, [])) obj2 fdVecStr 4
        ⟨[6, 0, 8, 0, 4, 0, 0, 0, 8, 0, 0, 0], List.replicate 3 false⟩).2,
      e.loc = 4 + (getOptionalFieldOffset
        [6, 0, 8, 0, 4, 0, 0, 0, 8, 0, 0, 0] 4 fdVecStr.offset : Int)) ∧
    (∀ a : Int,
      (a < 4 + (getOptionalFieldOffset
          [6, 0, 8, 0, 4, 0, 0, 0, 8, 0, 0, 0] 4 fdVecStr.offset : Int) ∨
        4 + (getOptionalFieldOffset
          [6, 0, 8, 0, 4, 0, 0, 0, 8, 0, 0, 0] 4 fdVecStr.offset : Int) + 4 ≤ a) →
      getB (resizeField sch2 10 8 (fun _ _ s => (s, [])) obj2 fdVecStr 4
        ⟨[6, 0, 8, 0, 4, 0, 0, 0, 8, 0, 0, 0], List.replicate 3 false⟩).1.buf a =
        getB [6, 0, 8, 0, 4, 0, 0, 0, 8, 0, 0, 0] a) ∧
    (∀ i : Nat,
      readU32 (resizeField sch2 10 8 (fun _ _ s => (s, [])) obj2 fdVecStr 4
        ⟨[6, 0, 8, 0, 4, 0, 0, 0, 8, 0, 0, 0], List.replicate 3 false⟩).1.buf
        (4 + (getOptionalFieldOffset
            [6, 0, 8, 0, 4, 0, 0, 0, 8, 0, 0, 0] 4 fdVecStr.offset : Int) +
          (readU32 [6, 0, 8, 0, 4, 0, 0, 0, 8, 0, 0, 0]
            (4 + (getOptionalFieldOffset
              [6, 0, 8, 0, 4, 0, 0, 0, 8, 0, 0, 0] 4 fdVecStr.offset : Int)) : Int)
          + 4 + 4 * (i : Int)) =
      readU32 [6, 0, 8, 0, 4, 0, 0, 0, 8, 0, 0, 0]
        (4 + (getOptionalFieldOffset
            [6, 0, 8, 0, 4, 0, 0, 0, 8, 0, 0, 0] 4 fdVecStr.offset : Int) +
          (readU32 [6, 0, 8, 0, 4, 0, 0, 0, 8, 0, 0, 0]
            (4 + (getOptionalFieldOffset
              [6, 0, 8, 0, 4, 0, 0, 0, 8, 0, 0, 0] 4 fdVecStr.offset : Int)) : Int)
          + 4 + 4 * (i : Int)))) :=
  ⟨by decide, by decide,
    C6_vector_of_strings_no_descent sch2 10 8 (fun _ _ s => (s, [])) obj2
      fdVecStr 4 ⟨[6, 0, 8, 0, 4, 0, 0, 0, 8, 0, 0, 0], List.replicate 3 false⟩
      (by decide) (by decide)⟩

/-- Witness for C7 on `bufT3` (`T3 { v: [10, 20, 30] }`): resizing to
`[10, 20, 30, 99, 99]`. -/
theorem C7_resize_scalar_vector_witness :
    (readU32 bufT3 20 = 3 ∧ readU32 bufT3 24 = 10 ∧ readU32 bufT3 28 = 20 ∧
      readU32 bufT3 32 = 30 ∧ (20 : Int).toNat + 16 ≤ bufT3.length) ∧
    (∀ e ∈ (resizePatch sch3 (20 + 16) (roundDelta 8) 10 bufT3).2,
      e.loc + 4 ≤ 20 ∨ 20 + 16 ≤ e.loc) ∧
    (readU32 (ResizeVector sch3 5 (encodeLE 4 99) 4 20 10 bufT3).1 20 = 5 ∧
      readU32 (ResizeVector sch3 5 (encodeLE 4 99) 4 20 10 bufT3).1 (20 + 4) = 10 ∧
      readU32 (ResizeVector sch3 5 (encodeLE 4 99) 4 20 10 bufT3).1 (20 + 8) = 20 ∧
      readU32 (ResizeVector sch3 5 (encodeLE 4 99) 4 20 10 bufT3).1 (20 + 12) = 30 ∧
      readU32 (ResizeVector sch3 5 (encodeLE 4 99) 4 20 10 bufT3).1 (20 + 16) = 99 ∧
      readU32 (ResizeVector sch3 5 (encodeLE 4 99) 4 20 10 bufT3).1 (20 + 20) = 99) :=
  ⟨⟨by decide, by decide, by decide, by decide, by decide⟩, by decide,
    C7_resize_scalar_vector sch3 10 20 bufT3 (by decide) (by decide)
      (by decide) (by decide) (by decide) (by decide) (by decide)⟩

/-- Witness for C9 on `bufT2`: growing the string at address 24 leaves its
length header (still 2) untouched even though the walk patched the slot at
address 20 right before it. -/
theorem C9_length_header_witness :
    (∀ e ∈ (resizePatch sch2 (24 + 4)
        (roundDelta ((([97, 98, 99, 100, 101, 102] : List Nat).length : Int) -
          (readU32 bufT2 24 : Int))) 10 bufT2).2,
      e.loc + 4 ≤ 24 ∨ 24 + 4 ≤ e.loc) ∧
    readU32 (SetString sch2 [97, 98, 99, 100, 101, 102] 24 10 bufT2).1 24 =
      readU32 bufT2 24 :=
  ⟨by decide,
    C9_length_header_untouched sch2 [97, 98, 99, 100, 101, 102] 24 10 bufT2
      (by decide)⟩

/-- Witness for C10 on `bufT5` (empty vtable, string field absent): both
coercing getters return 0 without consulting the parsers. -/
theorem C10_absent_string_field_witness :
    (fdString.ftype.base_type = BaseType.String_) ∧
    (getOptionalFieldOffset bufT5 4 fdString.offset = 0) ∧
    (GetAnyFieldI (fun _ _ => 0) (fun _ _ => 0) (fun _ => 42) bufT5 4
        fdString = 0 ∧
      GetAnyFieldF (fun _ _ => 0) (fun _ _ => 0) (fun _ => 42) (fun _ => 42)
        bufT5 4 fdString = 0) :=
  ⟨by decide, by decide,
    C10_absent_string_field (fun _ _ => 0) (fun _ _ => 0) (fun _ => 42)
      (fun _ => 42) bufT5 4 fdString (by decide) (by decide)⟩
